import Mathlib

/-!
# Microsemi AXI PCIe bridge driver (`pcie-microsemi.c`)

A shallow embedding of the MSI vector allocator, the link/bus validity gate,
the ECAM address computation, the bridge initialisation, the interrupt handler
and the MSI setup of
`freedom-u-sdk/linux/drivers/pci/controller/pcie-microsemi.c`, and of the SPI
clock divisor of `freedom-u-sdk/HiFive_U-Boot/drivers/spi/hifive_spi.c`,
followed by the properties proved about them.

Machine words are natural numbers; where the C code relies on a word width the
width is written out (`BITS_PER_LONG`, `% 2 ^ 32`).  Hardware register reads are
inputs of the functions that perform them; register writes and calls into the
kernel are returned as lists of events, in program order.
-/

namespace Microsemi

/-! ## Constants of the driver -/

/-- The macro `MICROSEMI_NUM_MSI_IRQS`: number of MSI vectors. -/
def MICROSEMI_NUM_MSI_IRQS : Nat := 32

/-- The macro `ECAM_BUS_NUM_SHIFT`. -/
def ECAM_BUS_NUM_SHIFT : Nat := 20

/-- The macro `ECAM_DEV_NUM_SHIFT`. -/
def ECAM_DEV_NUM_SHIFT : Nat := 12

/-- The macro `LTSSM_L0_STATE`, commented in the source as the PCIe LTSSM L0 state. -/
def LTSSM_L0_STATE : Nat := 0x10

/-- The errno `ENOSPC` of the kernel headers (`No space left on device`). -/
def ENOSPC : Int := 28

/-- Width of `unsigned long` on the 64-bit RISC-V target of this tree. -/
def BITS_PER_LONG : Nat := 64

/-- The all-ones `unsigned long`. -/
def ULONG_MAX : Nat := 2 ^ BITS_PER_LONG - 1

/-! ## Kernel bitmap helpers

`DECLARE_BITMAP(msi_irq_in_use, MICROSEMI_NUM_MSI_IRQS)` declares one
`unsigned long`; the bitmap is that word, a natural number.  The helpers below
are the kernel's, whose sources are outside this driver file. -/

/-- Modelled from the spec: the kernel helper `BIT_MASK(nr)` of `linux/bits.h`,
the word with only bit `nr` set (for `nr` inside the single bitmap word). -/
def BIT_MASK (nr : Nat) : Nat := 1 <<< nr

/-- Modelled from the spec: the kernel helper `test_bit(nr, addr)`, which tells
whether bit `nr` of the bitmap is set. -/
def test_bit (nr : Nat) (addr : Nat) : Bool := addr &&& BIT_MASK nr != 0

/-- Modelled from the spec: the kernel helper `set_bit(nr, addr)`, which
performs `*addr |= BIT_MASK(nr)`. -/
def set_bit (nr : Nat) (addr : Nat) : Nat := addr ||| BIT_MASK nr

/-- Modelled from the spec: the kernel helper `clear_bit(nr, addr)`, which
performs `*addr &= ~BIT_MASK(nr)`; the complement is taken at the width of
`unsigned long`. -/
def clear_bit (nr : Nat) (addr : Nat) : Nat := addr &&& (ULONG_MAX ^^^ BIT_MASK nr)

/-- The scan loop of `find_first_zero_bit`: starting at index `i`, look at up to
`n` bits and stop at the first clear one; the result is `i + n` when all of
them are set. -/
def find_next_zero (addr : Nat) : Nat → Nat → Nat
  | 0, i => i
  | n + 1, i => if test_bit i addr then find_next_zero addr n (i + 1) else i

/-- Modelled from the spec: the kernel helper `find_first_zero_bit(addr, size)`,
the lowest-clear-bit scan: the index of the lowest clear bit among the first
`size` bits, and `size` when there is none. -/
def find_first_zero_bit (addr size : Nat) : Nat := find_next_zero addr size 0

/-! ## MSI vector allocator -/

/-- Diagnostics the driver emits with `dev_err`. -/
inductive Diag where
  /-- The message `"Trying to free unused MSI#%d\n"`, with the irq it prints. -/
  | free_unused_msi (irq : Nat)
  deriving DecidableEq, Repr

/-- The function `microsemi_pcie_assign_msi`: from the in-use bitmap, the `int`
it returns and the bitmap afterwards. -/
def microsemi_pcie_assign_msi (msi_irq_in_use : Nat) : Int × Nat :=
  let pos := find_first_zero_bit msi_irq_in_use MICROSEMI_NUM_MSI_IRQS
  if pos < MICROSEMI_NUM_MSI_IRQS then
    ((pos : Int), set_bit pos msi_irq_in_use)
  else
    (-ENOSPC, msi_irq_in_use)

/-- The function `microsemi_pcie_destroy_msi`.  `irqd_to_hwirq` stands for
`irqd_to_hwirq(irq_get_irq_data(irq))`, the hardware number recorded for a
virtual irq.  The result is the bitmap afterwards and the diagnostics emitted
(the function returns `void`). -/
def microsemi_pcie_destroy_msi (irqd_to_hwirq : Nat → Nat) (irq : Nat)
    (msi_irq_in_use : Nat) : Nat × List Diag :=
  let hwirq := irqd_to_hwirq irq
  if !test_bit hwirq msi_irq_in_use then
    (msi_irq_in_use, [Diag.free_unused_msi irq])
  else
    (clear_bit hwirq msi_irq_in_use, [])

/-- The bitmap and the returned values, oldest first, after `k` successive
calls of `microsemi_pcie_assign_msi`. -/
def assign_msi_times : Nat → Nat → List Int × Nat
  | 0, bitmap => ([], bitmap)
  | k + 1, bitmap =>
    let r := microsemi_pcie_assign_msi bitmap
    let rest := assign_msi_times k r.2
    (r.1 :: rest.1, rest.2)

/-- One request made to the allocator: an allocation, or the teardown of a
virtual irq. -/
inductive MsiOp where
  /-- A call of `microsemi_pcie_assign_msi`. -/
  | assign
  /-- A call of `microsemi_pcie_destroy_msi` on the virtual irq `irq`. -/
  | destroy (irq : Nat)
  deriving DecidableEq, Repr

/-- The allocator together with a record kept beside it: `outstanding` lists the
ids handed out by successful allocations and not freed since.  The record is
built from the values returned to the caller only, never from the bitmap. -/
structure MsiPool where
  /-- The driver's bitmap `msi_irq_in_use`. -/
  msi_irq_in_use : Nat
  /-- Ids returned by a successful allocation and not freed since. -/
  outstanding : List Nat
  deriving DecidableEq, Repr

/-- One request applied to the pool.  An allocation is successful when the
returned `int` is not negative, the test `microsemi_pcie_msi_setup_irq` makes
(`if (hwirq < 0) return hwirq;`); a teardown frees the hardware number of its
irq. -/
def MsiPool.step (irqd_to_hwirq : Nat → Nat) (s : MsiPool) : MsiOp → MsiPool
  | MsiOp.assign =>
    let r := microsemi_pcie_assign_msi s.msi_irq_in_use
    if 0 ≤ r.1 then ⟨r.2, r.1.toNat :: s.outstanding⟩ else ⟨r.2, s.outstanding⟩
  | MsiOp.destroy irq =>
    ⟨(microsemi_pcie_destroy_msi irqd_to_hwirq irq s.msi_irq_in_use).1,
      s.outstanding.filter (fun i => i != irqd_to_hwirq irq)⟩

/-- A sequence of requests applied, in order, to the empty pool. -/
def MsiPool.run (irqd_to_hwirq : Nat → Nat) (ops : List MsiOp) : MsiPool :=
  ops.foldl (MsiPool.step irqd_to_hwirq) ⟨0, []⟩

/-- The invariant of the pool: the bitmap fits its 32 bits, a bit is set exactly
for the outstanding ids, and no id is outstanding twice. -/
def MsiPool.Consistent (s : MsiPool) : Prop :=
  s.msi_irq_in_use < 2 ^ MICROSEMI_NUM_MSI_IRQS ∧
  (∀ i, s.msi_irq_in_use.testBit i = true ↔ i ∈ s.outstanding) ∧
  s.outstanding.Nodup

/-! ## Link state, access validity and ECAM addressing -/

/-- The macro `LTSSM_STATE`: offset of the PCIe LTSSM state register. -/
def LTSSM_STATE : Nat := 0x5c

/-- The part of `struct microsemi_pcie_port` used by the configuration-space
path. -/
structure microsemi_pcie_port where
  /-- The field `reg_base`: address at which the configuration window is mapped;
  a successful `devm_pci_remap_cfg_resource`, never `NULL`. -/
  reg_base : Nat
  /-- What `readl(port->reg_ctrl_apb + reg)` returns for each offset `reg`. -/
  reg_ctrl_apb : Nat → Nat
  /-- The field `root_busno` (`u8`). -/
  root_busno : Nat

/-- The part of `struct pci_bus` the driver reads. -/
structure pci_bus where
  /-- The field `number` (`unsigned char`). -/
  number : Nat
  /-- The field `sysdata`: the port the bus belongs to. -/
  sysdata : microsemi_pcie_port

/-- The function `microsemi_pcie_link_up`:
`(readl(port->reg_ctrl_apb + LTSSM_STATE) & LTSSM_L0_STATE) ? 1 : 0`. -/
def microsemi_pcie_link_up (port : microsemi_pcie_port) : Bool :=
  if port.reg_ctrl_apb LTSSM_STATE &&& LTSSM_L0_STATE != 0 then true else false

/-- The function `microsemi_pcie_valid_device`. -/
def microsemi_pcie_valid_device (bus : pci_bus) (devfn : Nat) : Bool :=
  let port := bus.sysdata
  if bus.number ≠ port.root_busno ∧ microsemi_pcie_link_up port = false then
    false
  else if bus.number = port.root_busno ∧ devfn > 0 then
    false
  else
    true

/-- Conversion of a 32-bit `unsigned int` value to `int` (two's complement). -/
def to_int (u : Nat) : Int :=
  if u % 2 ^ 32 < 2 ^ 31 then ((u % 2 ^ 32 : Nat) : Int) else ((u % 2 ^ 32 : Nat) : Int) - 2 ^ 32

/-- The `int relbus` of `microsemi_pcie_map_bus`:
`(bus->number << ECAM_BUS_NUM_SHIFT) | (devfn << ECAM_DEV_NUM_SHIFT)`, computed
in `unsigned int` and stored in an `int`. -/
def relbus (bus : pci_bus) (devfn : Nat) : Int :=
  to_int ((bus.number <<< ECAM_BUS_NUM_SHIFT) ||| ((devfn <<< ECAM_DEV_NUM_SHIFT) % 2 ^ 32))

/-- The function `microsemi_pcie_map_bus`, by its two paths: `none` is the
`return NULL` of a rejected access, `some a` carries the sum
`port->reg_base + relbus + where` of the other path as an integer, before it is
cut to a pointer.  The argument `offset` is the parameter `where` of the
source.  The pointer the caller receives is `microsemi_pcie_map_bus_ptr`. -/
def microsemi_pcie_map_bus (bus : pci_bus) (devfn : Nat) (offset : Int) : Option Int :=
  let port := bus.sysdata
  if !microsemi_pcie_valid_device bus devfn then
    none
  else
    some ((port.reg_base : Int) + relbus bus devfn + offset)

/-- The value `microsemi_pcie_map_bus` returns, as the 64-bit pointer the caller
sees: `NULL` is 0, and the sum `port->reg_base + relbus + where` wraps at 64
bits, so that a computed address 0 is `NULL` as well. -/
def microsemi_pcie_map_bus_ptr (bus : pci_bus) (devfn : Nat) (offset : Int) : Nat :=
  match microsemi_pcie_map_bus bus devfn offset with
  | none => 0
  | some a => (a % 2 ^ 64).toNat

/-! ## Bit scans over set bits -/

/-- The scan loop of `find_next_bit`: starting at index `i`, look at up to `n`
bits and stop at the first set one; the result is `i + n` when all of them are
clear. -/
def find_next_set (addr : Nat) : Nat → Nat → Nat
  | 0, i => i
  | n + 1, i => if test_bit i addr then i else find_next_set addr n (i + 1)

/-- Modelled from the spec: the kernel helper `find_next_bit(addr, size, offset)`,
the lowest-set-bit scan from `offset`: the index of the lowest set bit in
`[offset, size)`, and `size` when there is none. -/
def find_next_bit (addr size offset : Nat) : Nat :=
  if offset ≥ size then size else find_next_set addr (size - offset) offset

/-- Modelled from the spec: the kernel helper `find_first_bit(addr, size)`, the
index of the lowest set bit among the first `size` bits, and `size` when there
is none. -/
def find_first_bit (addr size : Nat) : Nat := find_next_bit addr size 0

/-- The loop of the kernel macro `for_each_set_bit`, entered with the current
`bit`: while `bit < size` the body runs for `bit` and the loop goes on with
`find_next_bit(addr, size, bit + 1)`.  The first argument bounds the number of
iterations. -/
def for_each_set_bit_loop (addr size : Nat) : Nat → Nat → List Nat
  | 0, _ => []
  | fuel + 1, bit =>
    if bit < size then
      bit :: for_each_set_bit_loop addr size fuel (find_next_bit addr size (bit + 1))
    else
      []

/-- Modelled from the spec: the kernel macro `for_each_set_bit(bit, addr, size)`,
as the list of the values of `bit` for which the body runs, in the order in
which it runs: the loop starts at `find_first_bit(addr, size)`. -/
def for_each_set_bit (addr size : Nat) : List Nat :=
  for_each_set_bit_loop addr size size (find_first_bit addr size)

/-! ## Register map of the bridge -/

/-- The macro `SEC_ERROR_INT`. -/
def SEC_ERROR_INT : Nat := 0x28
/-- The macro `SEC_ERROR_INT_MASK`. -/
def SEC_ERROR_INT_MASK : Nat := 0x2c
/-- The macro `DED_ERROR_INT`. -/
def DED_ERROR_INT : Nat := 0x30
/-- The macro `DED_ERROR_INT_MASK`. -/
def DED_ERROR_INT_MASK : Nat := 0x34
/-- The macro `ECC_CONTROL`. -/
def ECC_CONTROL : Nat := 0x38
/-- The macro `PCIE_EVENT_INT`. -/
def PCIE_EVENT_INT : Nat := 0x14c
/-- The macro `IMASK_LOCAL`. -/
def IMASK_LOCAL : Nat := 0x180
/-- The macro `ISTATUS_LOCAL`. -/
def ISTATUS_LOCAL : Nat := 0x184
/-- The macro `IMASK_HOST`. -/
def IMASK_HOST : Nat := 0x188
/-- The macro `ISTATUS_HOST`. -/
def ISTATUS_HOST : Nat := 0x18c
/-- The macro `ISTATUS_MSI`. -/
def ISTATUS_MSI : Nat := 0x194
/-- The macro `PCIE_PCI_IDS_DW1`. -/
def PCIE_PCI_IDS_DW1 : Nat := 0x9c
/-- The macro `ATR0_AXI4_SLV0_SRCADDR_PARAM`. -/
def ATR0_AXI4_SLV0_SRCADDR_PARAM : Nat := 0x800
/-- The macro `ATR0_AXI4_SLV0_TRSL_ADDR_LSB`. -/
def ATR0_AXI4_SLV0_TRSL_ADDR_LSB : Nat := 0x808
/-- The macro `ATR0_AXI4_SLV0_TRSL_PARAM`. -/
def ATR0_AXI4_SLV0_TRSL_PARAM : Nat := 0x810
/-- The macro `ATR1_AXI4_SLV0_SRCADDR_PARAM`. -/
def ATR1_AXI4_SLV0_SRCADDR_PARAM : Nat := 0x820
/-- The macro `ATR1_AXI4_SLV0_TRSL_ADDR_LSB`. -/
def ATR1_AXI4_SLV0_TRSL_ADDR_LSB : Nat := 0x828
/-- The macro `ATR1_AXI4_SLV0_TRSL_PARAM`. -/
def ATR1_AXI4_SLV0_TRSL_PARAM : Nat := 0x830
/-- The macro `ATR0_PCIE_WIN0_SRCADDR_PARAM`. -/
def ATR0_PCIE_WIN0_SRCADDR_PARAM : Nat := 0x600
/-- The macro `PCIE_TX_RX_INTERFACE`. -/
def PCIE_TX_RX_INTERFACE : Nat := 0x00000000
/-- The macro `PCIE_CONFIG_INTERFACE`. -/
def PCIE_CONFIG_INTERFACE : Nat := 0x00000001
/-- The macro `PCIE_ENABLE_MSI`. -/
def PCIE_ENABLE_MSI : Nat := 0x10000000
/-- The macro `PCIE_LOCAL_INT_ENABLE`. -/
def PCIE_LOCAL_INT_ENABLE : Nat := 0xF000000
/-- The macro `MSI_MSG_ADDR`. -/
def MSI_MSG_ADDR : Nat := 0x190

/-- Modelled from the spec: the kernel constant `PCI_NUM_INTX` of `linux/pci.h`,
the number of legacy lines (four fixed lines, INTx A to D). -/
def PCI_NUM_INTX : Nat := 4
/-- The kernel constant `PCI_CLASS_BRIDGE_PCI` of `linux/pci_ids.h`. -/
def PCI_CLASS_BRIDGE_PCI : Nat := 0x0604
/-- The kernel constant `IRQ_HANDLED` of `enum irqreturn`. -/
def IRQ_HANDLED : Nat := 1
/-- The errno `EINVAL` of the kernel headers. -/
def EINVAL : Int := 22
/-- The kernel constant `IORESOURCE_TYPE_BITS` of `linux/ioport.h`. -/
def IORESOURCE_TYPE_BITS : Nat := 0x00001f00
/-- The kernel constant `IORESOURCE_MEM` of `linux/ioport.h`. -/
def IORESOURCE_MEM : Nat := 0x00000200
/-- The kernel constant `MAX_ERRNO` of `linux/err.h`. -/
def MAX_ERRNO : Nat := 4095

/-! ## Bridge initialisation -/

/-- The register block a `writel` goes to: the base pointer of the port that
the offset is added to. -/
inductive RegBlock where
  /-- The pointer `port->reg_base` (used by `pcie_write`). -/
  | reg_base
  /-- The pointer `port->reg_bridge_apb`. -/
  | reg_bridge_apb
  /-- The pointer `port->reg_ctrl_apb`. -/
  | reg_ctrl_apb
  deriving DecidableEq, Repr

/-- One `writel(val, block + reg)`. -/
structure RegWrite where
  /-- The base pointer. -/
  block : RegBlock
  /-- The register offset. -/
  reg : Nat
  /-- The 32-bit value written. -/
  val : Nat
  deriving DecidableEq, Repr

/-- The kernel's `struct resource`, as far as the driver reads it. -/
structure resource where
  /-- The field `start`. -/
  start : Nat
  /-- The field `end`. -/
  end_ : Nat
  deriving DecidableEq, Repr

/-- The kernel helper `resource_size`: `res->end - res->start + 1`, in the
64-bit `resource_size_t`. -/
def resource_size (res : resource) : Nat :=
  (res.end_ + 2 ^ 64 - res.start % 2 ^ 64 + 1) % 2 ^ 64

/-- The kernel's `struct of_pci_range`, as far as the driver reads it. -/
structure of_pci_range where
  /-- The field `pci_addr`. -/
  pci_addr : Nat
  /-- The field `cpu_addr`. -/
  cpu_addr : Nat
  /-- The field `size`. -/
  size : Nat
  /-- The field `flags`. -/
  flags : Nat
  deriving DecidableEq, Repr

/-- What the collaborators of `microsemi_pcie_init_port` hand back: device-tree
lookups, mappings, the irq request, the ranges, and the register reads. -/
structure InitEnv where
  /-- Result of `of_get_property(node, "device_type", NULL)`; `none` is `NULL`. -/
  device_type : Option String
  /-- Return value of `of_address_to_resource(node, 0, &regs)`. -/
  regs_err : Int
  /-- The resource `regs` it fills in. -/
  regs : resource
  /-- Pointer returned by `devm_pci_remap_cfg_resource`, as an `unsigned long`. -/
  reg_base : Nat
  /-- Return value of `of_address_to_resource(node, 1, &regs1)`. -/
  regs1_err : Int
  /-- Pointer returned by `devm_ioremap_resource`, as an `unsigned long`. -/
  reg_base_apb : Nat
  /-- Return value of `devm_request_irq`. -/
  request_irq_err : Int
  /-- The ranges `for_each_of_pci_range` yields, in order; `none` when
  `of_pci_range_parser_init` fails. -/
  ranges : Option (List of_pci_range)
  /-- What `readl(port->reg_bridge_apb + reg)` returns for each offset `reg`. -/
  readl_bridge_apb : Nat → Nat

/-- The kernel helper `IS_ERR`: the pointer lies in the last `MAX_ERRNO` values
of the address space. -/
def IS_ERR (ptr : Nat) : Bool := decide (ptr ≥ 2 ^ 64 - MAX_ERRNO)

/-- The kernel helper `PTR_ERR`: the pointer read as a signed number. -/
def PTR_ERR (ptr : Nat) : Int := (ptr : Int) - 2 ^ 64

/-- The `u32 bit` of `microsemi_pcie_init_port`:
`find_first_bit((const unsigned long *)&size, 64) - 1`, computed in
`unsigned long` and stored in a `u32`. -/
def atr_size_bit (size : Nat) : Nat :=
  ((find_first_bit size 64 + 2 ^ 64 - 1) % 2 ^ 64) % 2 ^ 32

/-- The value written to a `SRCADDR_PARAM` register:
`(u32)addr | bit << 1 | 0x01`. -/
def atr_srcaddr_param (addr size : Nat) : Nat :=
  (addr % 2 ^ 32) ||| ((atr_size_bit size <<< 1) % 2 ^ 32) ||| 0x01

/-- The three writes that programme translation table 0 for the configuration
space. -/
def atr0_writes (regs : resource) : List RegWrite :=
  [⟨RegBlock.reg_bridge_apb, ATR0_AXI4_SLV0_TRSL_PARAM, PCIE_CONFIG_INTERFACE⟩,
   ⟨RegBlock.reg_bridge_apb, ATR0_AXI4_SLV0_SRCADDR_PARAM,
     atr_srcaddr_param regs.start (resource_size regs)⟩,
   ⟨RegBlock.reg_bridge_apb, ATR0_AXI4_SLV0_TRSL_ADDR_LSB, regs.start % 2 ^ 32⟩]

/-- The body of the `for_each_of_pci_range` loop for one range: the `switch` on
`range.flags & IORESOURCE_TYPE_BITS` has the single case `IORESOURCE_MEM`, which
programmes translation table 1. -/
def atr1_writes (range : of_pci_range) : List RegWrite :=
  if range.flags &&& IORESOURCE_TYPE_BITS = IORESOURCE_MEM then
    [⟨RegBlock.reg_bridge_apb, ATR1_AXI4_SLV0_TRSL_PARAM, PCIE_TX_RX_INTERFACE⟩,
     ⟨RegBlock.reg_bridge_apb, ATR1_AXI4_SLV0_SRCADDR_PARAM,
       atr_srcaddr_param range.cpu_addr (range.size % 2 ^ 64)⟩,
     ⟨RegBlock.reg_bridge_apb, ATR1_AXI4_SLV0_TRSL_ADDR_LSB, range.pci_addr % 2 ^ 32⟩]
  else
    []

/-- The writes under the comment "Clear and Disable interrupts". -/
def clear_and_disable_writes : List RegWrite :=
  [⟨RegBlock.reg_ctrl_apb, ECC_CONTROL, 0x0f000000⟩,
   ⟨RegBlock.reg_ctrl_apb, PCIE_EVENT_INT, 0x00070007⟩,
   ⟨RegBlock.reg_ctrl_apb, SEC_ERROR_INT, 0x0000ffff⟩,
   ⟨RegBlock.reg_ctrl_apb, SEC_ERROR_INT_MASK, 0x0000ffff⟩,
   ⟨RegBlock.reg_ctrl_apb, DED_ERROR_INT, 0x0000ffff⟩,
   ⟨RegBlock.reg_ctrl_apb, DED_ERROR_INT_MASK, 0x0000ffff⟩,
   ⟨RegBlock.reg_bridge_apb, IMASK_LOCAL, 0x00000000⟩,
   ⟨RegBlock.reg_bridge_apb, ISTATUS_LOCAL, 0xffffffff⟩,
   ⟨RegBlock.reg_bridge_apb, IMASK_HOST, 0x00000000⟩,
   ⟨RegBlock.reg_bridge_apb, ISTATUS_HOST, 0xffffffff⟩]

/-- The writes after the ranges loop, the last of which enables the
interrupts. -/
def final_writes (env : InitEnv) : List RegWrite :=
  [⟨RegBlock.reg_bridge_apb, ATR0_PCIE_WIN0_SRCADDR_PARAM,
     env.readl_bridge_apb ATR0_PCIE_WIN0_SRCADDR_PARAM ||| 0x3E⟩,
   ⟨RegBlock.reg_bridge_apb, 0x604, 0⟩,
   ⟨RegBlock.reg_bridge_apb, PCIE_PCI_IDS_DW1,
     (env.readl_bridge_apb PCIE_PCI_IDS_DW1 &&& 0xffff) ||| (PCI_CLASS_BRIDGE_PCI <<< 16)⟩,
   ⟨RegBlock.reg_base, 0x18, 0x00ff0100⟩,
   ⟨RegBlock.reg_bridge_apb, IMASK_LOCAL, PCIE_ENABLE_MSI ||| PCIE_LOCAL_INT_ENABLE⟩]

/-- The function `microsemi_pcie_init_port`: the `int` it returns and the
register writes it performs, in order.  Log messages are left out. -/
def microsemi_pcie_init_port (env : InitEnv) : Int × List RegWrite :=
  match env.device_type with
  | none => (-EINVAL, [])
  | some type =>
    if type ≠ "pci" then (-EINVAL, [])
    else if env.regs_err ≠ 0 then (env.regs_err, [])
    else if IS_ERR env.reg_base then (PTR_ERR env.reg_base, [])
    else if env.regs1_err ≠ 0 then (env.regs1_err, [])
    else if IS_ERR env.reg_base_apb then (PTR_ERR env.reg_base_apb, [])
    else if env.request_irq_err ≠ 0 then (env.request_irq_err, [])
    else
      match env.ranges with
      | none => (-EINVAL, clear_and_disable_writes ++ atr0_writes env.regs)
      | some ranges =>
        (0, clear_and_disable_writes ++ atr0_writes env.regs ++
          (ranges.map atr1_writes).flatten ++ final_writes env)

/-- The probes before the first register write all succeed: the device type
is `"pci"`, both resources are found, both mappings are valid pointers and the
irq is granted. -/
def InitEnv.probes_ok (env : InitEnv) : Bool :=
  env.device_type == some "pci" && env.regs_err == 0 && !IS_ERR env.reg_base &&
    env.regs1_err == 0 && !IS_ERR env.reg_base_apb && env.request_irq_err == 0

/-- The write goes to one of the three registers of translation table 0 that
the driver programmes. -/
def RegWrite.to_atr0 (w : RegWrite) : Bool :=
  decide (w.block = RegBlock.reg_bridge_apb) &&
    (w.reg == ATR0_AXI4_SLV0_TRSL_PARAM || w.reg == ATR0_AXI4_SLV0_SRCADDR_PARAM ||
      w.reg == ATR0_AXI4_SLV0_TRSL_ADDR_LSB)

/-- The write goes to one of the three registers of translation table 1 that
the driver programmes. -/
def RegWrite.to_atr1 (w : RegWrite) : Bool :=
  decide (w.block = RegBlock.reg_bridge_apb) &&
    (w.reg == ATR1_AXI4_SLV0_TRSL_PARAM || w.reg == ATR1_AXI4_SLV0_SRCADDR_PARAM ||
      w.reg == ATR1_AXI4_SLV0_TRSL_ADDR_LSB)

/-- The range is of memory type: the test of the `switch` in the ranges loop. -/
def of_pci_range.is_mem (range : of_pci_range) : Bool :=
  range.flags &&& IORESOURCE_TYPE_BITS == IORESOURCE_MEM

/-- The write goes to the local interrupt mask register `IMASK_LOCAL`. -/
def RegWrite.to_imask_local (w : RegWrite) : Bool :=
  decide (w.block = RegBlock.reg_bridge_apb) && w.reg == IMASK_LOCAL

/-- The write goes to a register of one of the translation tables: the AXI4
slave tables 0 and 1, or the PCIe master window table at
`ATR0_PCIE_WIN0_SRCADDR_PARAM` and `0x604`. -/
def RegWrite.to_translation_table (w : RegWrite) : Bool :=
  w.to_atr0 || w.to_atr1 ||
    (decide (w.block = RegBlock.reg_bridge_apb) &&
      (w.reg == ATR0_PCIE_WIN0_SRCADDR_PARAM || w.reg == 0x604))

/-- The content of a register after a sequence of writes: the value of the last
write to it, `none` if it was never written. -/
def reg_after (writes : List RegWrite) (block : RegBlock) (reg : Nat) : Option Nat :=
  ((writes.filter (fun w => w.block = block ∧ w.reg = reg)).getLast?).map RegWrite.val

/-- Modelled from the spec: the window size a size field denotes under the
"size exponent minus one" encoding, `2 ^ (field + 1)`. -/
def atr_window_size (field : Nat) : Nat := 2 ^ (field + 1)

/-- Modelled from the spec: the size field of a source-window register value,
bits [6:1], between the enable bit 0 and the address bits. -/
def atr_size_field (srcaddr_param : Nat) : Nat := (srcaddr_param >>> 1) % 2 ^ 6

/-! ## Interrupt handler -/

/-- What `microsemi_pcie_intr_handler` does, as seen from outside. -/
inductive IrqEvent where
  /-- A `readl(port->reg_bridge_apb + reg)`. -/
  | readl (reg : Nat)
  /-- A `writel(val, port->reg_bridge_apb + reg)`. -/
  | writel (val : Nat) (reg : Nat)
  /-- A call `generic_handle_irq(virq)`. -/
  | generic_handle_irq (virq : Nat)
  /-- The message `"unexpected IRQ, INT%d\n"`, with the bit it prints. -/
  | unexpected_irq (bit : Nat)
  deriving DecidableEq, Repr

/-- What the hardware and the irq domains answer during one run of the
handler. -/
structure IntrEnv where
  /-- Value of the first `readl` of `ISTATUS_LOCAL`. -/
  istatus_local_first : Nat
  /-- Value of the second `readl` of `ISTATUS_LOCAL`. -/
  istatus_local_second : Nat
  /-- Value of the `readl` of `ISTATUS_MSI`, when it takes place. -/
  istatus_msi : Nat
  /-- The lookup `irq_find_mapping(port->leg_domain, bit)`; 0 is "no mapping". -/
  leg_domain : Nat → Nat
  /-- The lookup `irq_find_mapping(port->msi_domain, bit)`; 0 is "no mapping". -/
  msi_domain : Nat → Nat

/-- The tail of both loop bodies: look the bit up in the domain, then
`generic_handle_irq` when a virq is found and the `dev_err` otherwise. -/
def handle_or_report (domain : Nat → Nat) (bit : Nat) : IrqEvent :=
  let virq := domain bit
  if virq ≠ 0 then IrqEvent.generic_handle_irq virq else IrqEvent.unexpected_irq bit

/-- The body of the INTx loop for one `bit`. -/
def intx_body (env : IntrEnv) (bit : Nat) : List IrqEvent :=
  [IrqEvent.writel ((1 <<< (bit + 24)) % 2 ^ 32) ISTATUS_LOCAL,
   handle_or_report env.leg_domain bit]

/-- The body of the MSI loop for one `bit`. -/
def msi_body (env : IntrEnv) (bit : Nat) : List IrqEvent :=
  [IrqEvent.writel ((1 <<< bit) % 2 ^ 32) ISTATUS_MSI,
   handle_or_report env.msi_domain bit]

/-- The INTx part of `microsemi_pcie_intr_handler`: the first read of
`ISTATUS_LOCAL` and the loop over `(status >> 24) & 0x0f`. -/
def intr_handler_intx (env : IntrEnv) : List IrqEvent :=
  let status := (env.istatus_local_first >>> 24) &&& 0x0f
  IrqEvent.readl ISTATUS_LOCAL ::
    ((for_each_set_bit status PCI_NUM_INTX).map (intx_body env)).flatten

/-- The MSI part of `microsemi_pcie_intr_handler`: the second read of
`ISTATUS_LOCAL` and, under the test of bit 28, the loop over `ISTATUS_MSI`. -/
def intr_handler_msi (env : IntrEnv) : List IrqEvent :=
  let status := env.istatus_local_second
  IrqEvent.readl ISTATUS_LOCAL ::
    (if status &&& 0x10000000 = 0x10000000 then
      IrqEvent.writel ((1 <<< 28) % 2 ^ 32) ISTATUS_LOCAL :: IrqEvent.readl ISTATUS_MSI ::
        ((for_each_set_bit env.istatus_msi MICROSEMI_NUM_MSI_IRQS).map (msi_body env)).flatten
    else
      [])

/-- The function `microsemi_pcie_intr_handler`: the `irqreturn_t` it returns
and, in order, the register accesses, dispatches and diagnostics it makes. -/
def microsemi_pcie_intr_handler (env : IntrEnv) : Nat × List IrqEvent :=
  (IRQ_HANDLED, intr_handler_intx env ++ intr_handler_msi env)

/-- The virqs passed to `generic_handle_irq`, in order. -/
def dispatched : List IrqEvent → List Nat
  | [] => []
  | IrqEvent.generic_handle_irq virq :: es => virq :: dispatched es
  | _ :: es => dispatched es

/-- The number of set bits among the 32 bits of a register value. -/
def popcount (x : Nat) : Nat := ((List.range 32).filter (fun b => x.testBit b)).length

/-- The event is a `writel` to one of the two pending-status registers,
`ISTATUS_LOCAL` or `ISTATUS_MSI`: a write that clears pending bits. -/
def IrqEvent.is_clear_write : IrqEvent → Bool
  | IrqEvent.readl _ => false
  | IrqEvent.writel _ reg => reg == ISTATUS_LOCAL || reg == ISTATUS_MSI
  | IrqEvent.generic_handle_irq _ => false
  | IrqEvent.unexpected_irq _ => false

/-- The register access an event consists of, if it is one: `none` for the
hand-over of a source (a dispatch or the diagnostic). -/
def IrqEvent.access : IrqEvent → Option IrqEvent
  | IrqEvent.readl reg => some (IrqEvent.readl reg)
  | IrqEvent.writel val reg => some (IrqEvent.writel val reg)
  | IrqEvent.generic_handle_irq _ => none
  | IrqEvent.unexpected_irq _ => none

/-- The value has exactly one of its 32 bits set, and that bit is set in the
value last read (`none`: nothing read yet). -/
def observed_single_bit (last : Option Nat) (val : Nat) : Bool :=
  match last with
  | none => false
  | some r => (List.range 32).any (fun b => val == 2 ^ b && r.testBit b)

/-- Replay of a trace of the handler against the hardware answers of `env`:
true when every write to `ISTATUS_LOCAL` or `ISTATUS_MSI` is a single bit that
was set in the value most recently read from the same register.  The arguments
after the trace are the number of reads of `ISTATUS_LOCAL` made so far and the
values last read from `ISTATUS_LOCAL` and from `ISTATUS_MSI`. -/
def writes_observed (env : IntrEnv) : List IrqEvent → Nat → Option Nat → Option Nat → Bool
  | [], _, _, _ => true
  | IrqEvent.readl reg :: es, n, last_local, last_msi =>
    if reg = ISTATUS_LOCAL then
      writes_observed env es (n + 1)
        (some (if n = 0 then env.istatus_local_first else env.istatus_local_second)) last_msi
    else if reg = ISTATUS_MSI then
      writes_observed env es n last_local (some env.istatus_msi)
    else
      writes_observed env es n last_local last_msi
  | IrqEvent.writel val reg :: es, n, last_local, last_msi =>
    if reg = ISTATUS_LOCAL then
      observed_single_bit last_local val && writes_observed env es n last_local last_msi
    else if reg = ISTATUS_MSI then
      observed_single_bit last_msi val && writes_observed env es n last_local last_msi
    else
      writes_observed env es n last_local last_msi
  | IrqEvent.generic_handle_irq _ :: es, n, last_local, last_msi =>
    writes_observed env es n last_local last_msi
  | IrqEvent.unexpected_irq _ :: es, n, last_local, last_msi =>
    writes_observed env es n last_local last_msi

/-- One thing that happens to the driver: a request to the MSI allocator, or a
run of the interrupt handler. -/
inductive DriverOp where
  /-- An allocation or a teardown. -/
  | msi (op : MsiOp)
  /-- A run of `microsemi_pcie_intr_handler` with the given hardware answers. -/
  | interrupt (env : IntrEnv)

/-- The function `microsemi_pcie_intr_handler` as a transition on the driver's
file-scope bitmap `msi_irq_in_use`: its body contains no access to the bitmap,
which is handed back as it was received. -/
def intr_handler_on_bitmap (env : IntrEnv) (msi_irq_in_use : Nat) :
    (Nat × List IrqEvent) × Nat :=
  (microsemi_pcie_intr_handler env, msi_irq_in_use)

/-- One `DriverOp` applied to the pool. -/
def DriverOp.step (irqd_to_hwirq : Nat → Nat) (s : MsiPool) : DriverOp → MsiPool
  | DriverOp.msi op => s.step irqd_to_hwirq op
  | DriverOp.interrupt env =>
    ⟨(intr_handler_on_bitmap env s.msi_irq_in_use).2, s.outstanding⟩

/-- The allocator requests among a sequence of `DriverOp`s, in order. -/
def DriverOp.msi_ops : List DriverOp → List MsiOp
  | [] => []
  | DriverOp.msi op :: ops => op :: DriverOp.msi_ops ops
  | DriverOp.interrupt _ :: ops => DriverOp.msi_ops ops

/-! ## MSI setup -/

/-- The kernel's `struct msi_msg`. -/
structure msi_msg where
  /-- The field `address_lo`. -/
  address_lo : Nat
  /-- The field `address_hi`. -/
  address_hi : Nat
  /-- The field `data`. -/
  data : Nat
  deriving DecidableEq, Repr

/-- The calls `microsemi_pcie_msi_setup_irq` makes into the irq and MSI core. -/
inductive MsiSetupEvent where
  /-- A call `irq_create_mapping(port->msi_domain, hwirq)`. -/
  | irq_create_mapping (hwirq : Nat)
  /-- A call `irq_set_msi_desc(irq, desc)`. -/
  | irq_set_msi_desc (irq : Nat)
  /-- A call `pci_write_msi_msg(irq, &msg)`. -/
  | pci_write_msi_msg (irq : Nat) (msg : msi_msg)
  deriving DecidableEq, Repr

/-- The function `microsemi_pcie_msi_setup_irq`.  `irq_create_mapping` is the
virq the irq core answers for a hardware number (0 on failure).  The result is
the `int` returned, the in-use bitmap afterwards and the calls made. -/
def microsemi_pcie_msi_setup_irq (irq_create_mapping : Nat → Nat) (msi_irq_in_use : Nat) :
    Int × Nat × List MsiSetupEvent :=
  let r := microsemi_pcie_assign_msi msi_irq_in_use
  let hwirq := r.1
  if hwirq < 0 then
    (hwirq, r.2, [])
  else
    let irq := irq_create_mapping hwirq.toNat
    if irq = 0 then
      (-EINVAL, r.2, [MsiSetupEvent.irq_create_mapping hwirq.toNat])
    else
      (0, r.2,
        [MsiSetupEvent.irq_create_mapping hwirq.toNat,
         MsiSetupEvent.irq_set_msi_desc irq,
         MsiSetupEvent.pci_write_msi_msg irq ⟨MSI_MSG_ADDR, 0, hwirq.toNat⟩])

/-! ## SPI clock divisor (`hifive_spi.c`) -/

theorem test_bit_eq_testBit (nr addr : Nat) : test_bit nr addr = addr.testBit nr := by
  unfold test_bit BIT_MASK
  rw [Nat.one_shiftLeft]
  by_cases h : addr.testBit nr = true
  · have hb : (addr &&& 2 ^ nr).testBit nr = true := by
      simp [Nat.testBit_and, h, Nat.testBit_two_pow_self]
    have hne : addr &&& 2 ^ nr ≠ 0 := by
      intro h0
      rw [h0] at hb
      simp at hb
    simp [hne, h]
  · have h0 : addr &&& 2 ^ nr = 0 := by
      apply Nat.eq_of_testBit_eq
      intro i
      simp only [Nat.testBit_and, Nat.testBit_two_pow, Nat.zero_testBit]
      by_cases hi : nr = i
      · subst hi
        simp [h]
      · simp [hi]
    simp [h0, h]

theorem testBit_set_bit (nr addr j : Nat) :
    (set_bit nr addr).testBit j = (addr.testBit j || decide (nr = j)) := by
  unfold set_bit BIT_MASK
  rw [Nat.one_shiftLeft, Nat.testBit_or, Nat.testBit_two_pow]

theorem testBit_clear_bit (nr addr j : Nat) (haddr : addr < 2 ^ BITS_PER_LONG) :
    (clear_bit nr addr).testBit j = (addr.testBit j && !decide (nr = j)) := by
  unfold clear_bit BIT_MASK ULONG_MAX
  rw [Nat.one_shiftLeft, Nat.testBit_and, Nat.testBit_xor, Nat.testBit_two_pow_sub_one,
    Nat.testBit_two_pow]
  by_cases hj : j < BITS_PER_LONG
  · simp [hj]
  · have hle : 2 ^ BITS_PER_LONG ≤ 2 ^ j := Nat.pow_le_pow_right (by decide) (Nat.le_of_not_lt hj)
    have hf : addr.testBit j = false := Nat.testBit_lt_two_pow (Nat.lt_of_lt_of_le haddr hle)
    simp [hf]

theorem clear_bit_lt (nr addr n : Nat) (haddr : addr < 2 ^ n) : clear_bit nr addr < 2 ^ n := by
  unfold clear_bit
  rw [Nat.and_comm]
  exact Nat.and_lt_two_pow _ haddr

theorem set_bit_lt (nr addr n : Nat) (hnr : nr < n) (haddr : addr < 2 ^ n) :
    set_bit nr addr < 2 ^ n := by
  unfold set_bit BIT_MASK
  rw [Nat.one_shiftLeft]
  exact Nat.or_lt_two_pow haddr (Nat.pow_lt_pow_right (by decide) hnr)

theorem find_next_zero_spec (addr : Nat) : ∀ n i,
    i ≤ find_next_zero addr n i ∧ find_next_zero addr n i ≤ i + n ∧
    (∀ j, i ≤ j → j < find_next_zero addr n i → addr.testBit j = true) ∧
    (find_next_zero addr n i < i + n → addr.testBit (find_next_zero addr n i) = false) := by
  intro n
  induction n with
  | zero =>
    intro i
    simp only [find_next_zero]
    refine ⟨Nat.le_refl _, Nat.le_refl _, ?_, ?_⟩
    · intro j h1 h2
      omega
    · intro h
      omega
  | succ n ih =>
    intro i
    simp only [find_next_zero]
    by_cases hb : test_bit i addr = true
    · rw [if_pos hb]
      obtain ⟨h1, h2, h3, h4⟩ := ih (i + 1)
      refine ⟨by omega, by omega, ?_, ?_⟩
      · intro j hij hj
        by_cases hji : j = i
        · subst hji
          rw [← test_bit_eq_testBit]
          exact hb
        · exact h3 j (by omega) hj
      · intro h
        exact h4 (by omega)
    · rw [if_neg hb]
      refine ⟨Nat.le_refl _, by omega, ?_, ?_⟩
      · intro j h1 h2
        omega
      · intro _
        rw [← test_bit_eq_testBit]
        simpa using hb

/-- What `find_first_zero_bit` computes: an index at most `size`, below which
every bit is set, and whose own bit is clear when it is below `size`. -/
theorem find_first_zero_bit_spec (addr size : Nat) :
    find_first_zero_bit addr size ≤ size ∧
    (∀ j, j < find_first_zero_bit addr size → addr.testBit j = true) ∧
    (find_first_zero_bit addr size < size →
      addr.testBit (find_first_zero_bit addr size) = false) := by
  obtain ⟨_, h2, h3, h4⟩ := find_next_zero_spec addr size 0
  unfold find_first_zero_bit
  refine ⟨by omega, fun j hj => h3 j (Nat.zero_le _) hj, fun h => h4 (by omega)⟩

theorem find_first_zero_bit_lt (addr size i : Nat) (hi : i < size)
    (hclear : addr.testBit i = false) : find_first_zero_bit addr size < size := by
  obtain ⟨h1, h2, _⟩ := find_first_zero_bit_spec addr size
  by_contra hge
  have hset := h2 i (by omega)
  rw [hclear] at hset
  exact Bool.noConfusion hset

theorem find_first_zero_bit_eq (addr size p : Nat) (hp : p < size)
    (hclear : addr.testBit p = false) (hbelow : ∀ j, j < p → addr.testBit j = true) :
    find_first_zero_bit addr size = p := by
  obtain ⟨_, h2, h3⟩ := find_first_zero_bit_spec addr size
  have hlt := find_first_zero_bit_lt addr size p hp hclear
  have hcl := h3 hlt
  by_contra hne
  rcases Nat.lt_or_gt_of_ne hne with h | h
  · have := hbelow _ h
    rw [hcl] at this
    exact Bool.noConfusion this
  · have := h2 p h
    rw [hclear] at this
    exact Bool.noConfusion this

theorem assign_msi_of_lowest (bitmap p : Nat) (hp : p < MICROSEMI_NUM_MSI_IRQS)
    (hclear : bitmap.testBit p = false) (hbelow : ∀ j, j < p → bitmap.testBit j = true) :
    microsemi_pcie_assign_msi bitmap = ((p : Int), set_bit p bitmap) := by
  unfold microsemi_pcie_assign_msi
  simp only [find_first_zero_bit_eq bitmap _ p hp hclear hbelow, if_pos hp]

theorem assign_msi_of_full (bitmap : Nat)
    (hfull : ∀ i, i < MICROSEMI_NUM_MSI_IRQS → bitmap.testBit i = true) :
    microsemi_pcie_assign_msi bitmap = (-ENOSPC, bitmap) := by
  obtain ⟨h1, _, h3⟩ := find_first_zero_bit_spec bitmap MICROSEMI_NUM_MSI_IRQS
  unfold microsemi_pcie_assign_msi
  by_cases hlt : find_first_zero_bit bitmap MICROSEMI_NUM_MSI_IRQS < MICROSEMI_NUM_MSI_IRQS
  · have := hfull _ hlt
    rw [h3 hlt] at this
    exact Bool.noConfusion this
  · simp only [if_neg hlt]

/-! ## Properties of the MSI vector allocator -/

/-- C1: whenever the in-use bitmap has a clear bit among its 32 bits,
`microsemi_pcie_assign_msi` returns the index of the lowest clear bit, and that
bit is set in the bitmap after the call. -/
theorem assign_msi_returns_lowest_clear_bit (bitmap : Nat)
    (hfree : ∃ i, i < MICROSEMI_NUM_MSI_IRQS ∧ bitmap.testBit i = false) :
    ∃ pos : Nat, pos < MICROSEMI_NUM_MSI_IRQS ∧
      (microsemi_pcie_assign_msi bitmap).1 = (pos : Int) ∧
      bitmap.testBit pos = false ∧
      (∀ j, j < pos → bitmap.testBit j = true) ∧
      (microsemi_pcie_assign_msi bitmap).2.testBit pos = true := by
  obtain ⟨i, hi, hclear⟩ := hfree
  obtain ⟨_, h2, h3⟩ := find_first_zero_bit_spec bitmap MICROSEMI_NUM_MSI_IRQS
  have hlt := find_first_zero_bit_lt bitmap _ i hi hclear
  refine ⟨find_first_zero_bit bitmap MICROSEMI_NUM_MSI_IRQS, hlt, ?_, h3 hlt, h2, ?_⟩
  · rw [assign_msi_of_lowest bitmap _ hlt (h3 hlt) h2]
  · rw [assign_msi_of_lowest bitmap _ hlt (h3 hlt) h2]
    simp [testBit_set_bit]

/-- Witness of C1 at the bitmap `0b1011`, whose lowest clear bit is bit 2. -/
theorem assign_msi_returns_lowest_clear_bit_witness :
    ∃ pos : Nat, pos < MICROSEMI_NUM_MSI_IRQS ∧
      (microsemi_pcie_assign_msi 0b1011).1 = (pos : Int) ∧
      (0b1011 : Nat).testBit pos = false ∧
      (∀ j, j < pos → (0b1011 : Nat).testBit j = true) ∧
      (microsemi_pcie_assign_msi 0b1011).2.testBit pos = true :=
  assign_msi_returns_lowest_clear_bit 0b1011 ⟨2, by decide, by decide⟩

theorem assign_msi_low_ones (m : Nat) (hm : m < MICROSEMI_NUM_MSI_IRQS) :
    microsemi_pcie_assign_msi (2 ^ m - 1) = ((m : Int), 2 ^ (m + 1) - 1) := by
  have hclear : (2 ^ m - 1).testBit m = false := by simp
  have hbelow : ∀ j, j < m → (2 ^ m - 1).testBit j = true := by
    intro j hj
    simp [hj]
  rw [assign_msi_of_lowest _ m hm hclear hbelow]
  congr 1
  apply Nat.eq_of_testBit_eq
  intro i
  rw [testBit_set_bit, Nat.testBit_two_pow_sub_one, Nat.testBit_two_pow_sub_one]
  by_cases h1 : i < m
  · have h2 : i < m + 1 := by omega
    simp [h1, h2]
  · by_cases h3 : m = i
    · subst h3
      simp
    · have h2 : ¬ i < m + 1 := by omega
      simp [h1, h2, h3]

theorem assign_msi_times_low_ones : ∀ k m, m + k ≤ MICROSEMI_NUM_MSI_IRQS →
    assign_msi_times k (2 ^ m - 1) =
      ((List.range' m k).map (fun i : Nat => (i : Int)), 2 ^ (m + k) - 1) := by
  intro k
  induction k with
  | zero =>
    intro m _
    simp [assign_msi_times]
  | succ k ih =>
    intro m hm
    have hlt : m < MICROSEMI_NUM_MSI_IRQS := by omega
    simp only [assign_msi_times, assign_msi_low_ones m hlt, ih (m + 1) (by omega)]
    simp [List.range', Nat.add_assoc, Nat.add_comm 1 k]

theorem assign_msi_times_empty (k : Nat) (hk : k ≤ MICROSEMI_NUM_MSI_IRQS) :
    assign_msi_times k 0 = ((List.range k).map (fun i : Nat => (i : Int)), 2 ^ k - 1) := by
  have h := assign_msi_times_low_ones k 0 (by omega)
  simpa [List.range_eq_range'] using h

/-- C2: from the empty bitmap, `k ≤ 32` successive calls of
`microsemi_pcie_assign_msi` return `0, 1, ..., k-1` in that order; the returned
ids are pairwise distinct and each lies in `[0, 32)`. -/
theorem assign_msi_sequence (k : Nat) (hk : k ≤ MICROSEMI_NUM_MSI_IRQS) :
    (assign_msi_times k 0).1 = (List.range k).map (fun i : Nat => (i : Int)) ∧
    (assign_msi_times k 0).1.Nodup ∧
    ∀ r ∈ (assign_msi_times k 0).1, 0 ≤ r ∧ r < (MICROSEMI_NUM_MSI_IRQS : Int) := by
  rw [assign_msi_times_empty k hk]
  refine ⟨rfl, ?_, ?_⟩
  · exact List.Nodup.map (fun a b h => Int.ofNat.inj h) (List.nodup_range k)
  · intro r hr
    obtain ⟨i, hi, rfl⟩ := List.mem_map.mp hr
    have hik : i < k := List.mem_range.mp hi
    constructor
    · exact Int.ofNat_nonneg i
    · exact Int.ofNat_lt.mpr (by omega)

/-- Witness of C2: all 32 vectors allocated in a row. -/
theorem assign_msi_sequence_witness :
    (assign_msi_times 32 0).1 = (List.range 32).map (fun i : Nat => (i : Int)) ∧
    (assign_msi_times 32 0).1.Nodup ∧
    ∀ r ∈ (assign_msi_times 32 0).1, 0 ≤ r ∧ r < (MICROSEMI_NUM_MSI_IRQS : Int) :=
  assign_msi_sequence 32 (by decide)

/-- C3: when all 32 bits of the bitmap are set `microsemi_pcie_assign_msi`
returns `-ENOSPC` and leaves the bitmap as it was; it returns `-ENOSPC` in no
other state; and the 33rd allocation from the empty pool is such a failure. -/
theorem assign_msi_enospc_iff_full (bitmap : Nat) :
    ((∀ i, i < MICROSEMI_NUM_MSI_IRQS → bitmap.testBit i = true) →
      microsemi_pcie_assign_msi bitmap = (-ENOSPC, bitmap)) ∧
    ((microsemi_pcie_assign_msi bitmap).1 = -ENOSPC →
      ∀ i, i < MICROSEMI_NUM_MSI_IRQS → bitmap.testBit i = true) ∧
    microsemi_pcie_assign_msi (assign_msi_times 32 0).2 =
      (-ENOSPC, (assign_msi_times 32 0).2) := by
  refine ⟨assign_msi_of_full bitmap, ?_, ?_⟩
  · intro hret i hi
    by_contra hclear
    have hfalse : bitmap.testBit i = false := by simpa using hclear
    obtain ⟨_, h2, h3⟩ := find_first_zero_bit_spec bitmap MICROSEMI_NUM_MSI_IRQS
    have hlt := find_first_zero_bit_lt bitmap _ i hi hfalse
    rw [assign_msi_of_lowest bitmap _ hlt (h3 hlt) h2] at hret
    have hnn : (0 : Int) ≤ (find_first_zero_bit bitmap MICROSEMI_NUM_MSI_IRQS : Int) :=
      Int.ofNat_nonneg _
    simp only [ENOSPC] at hret
    omega
  · apply assign_msi_of_full
    intro i hi
    rw [assign_msi_times_empty 32 (by decide)]
    simp only [MICROSEMI_NUM_MSI_IRQS] at hi
    show (2 ^ 32 - 1).testBit i = true
    rw [Nat.testBit_two_pow_sub_one]
    simp [hi]

/-- Witness of C3 at the full bitmap `0xFFFFFFFF`. -/
theorem assign_msi_enospc_iff_full_witness :
    microsemi_pcie_assign_msi 0xFFFFFFFF = (-ENOSPC, 0xFFFFFFFF) :=
  (assign_msi_enospc_iff_full 0xFFFFFFFF).1 (by
    intro i hi
    have h : (0xFFFFFFFF : Nat) = 2 ^ 32 - 1 := by decide
    simp only [MICROSEMI_NUM_MSI_IRQS] at hi
    rw [h, Nat.testBit_two_pow_sub_one]
    simp [hi])

theorem destroy_msi_of_set (irqd_to_hwirq : Nat → Nat) (irq bitmap : Nat)
    (hset : bitmap.testBit (irqd_to_hwirq irq) = true) :
    microsemi_pcie_destroy_msi irqd_to_hwirq irq bitmap =
      (clear_bit (irqd_to_hwirq irq) bitmap, []) := by
  unfold microsemi_pcie_destroy_msi
  simp [test_bit_eq_testBit, hset]

theorem destroy_msi_of_clear (irqd_to_hwirq : Nat → Nat) (irq bitmap : Nat)
    (hclear : bitmap.testBit (irqd_to_hwirq irq) = false) :
    microsemi_pcie_destroy_msi irqd_to_hwirq irq bitmap =
      (bitmap, [Diag.free_unused_msi irq]) := by
  unfold microsemi_pcie_destroy_msi
  simp [test_bit_eq_testBit, hclear]

/-- C4: after `k ≤ 32` allocations from the empty pool, freeing one of the ids
those allocations returned with `microsemi_pcie_destroy_msi` and then calling
`microsemi_pcie_assign_msi` once returns that same id. -/
theorem destroy_then_assign_returns_same_id (irqd_to_hwirq : Nat → Nat) (k irq : Nat)
    (hk : k ≤ MICROSEMI_NUM_MSI_IRQS)
    (hassigned : ((irqd_to_hwirq irq : Nat) : Int) ∈ (assign_msi_times k 0).1) :
    (microsemi_pcie_assign_msi
      (microsemi_pcie_destroy_msi irqd_to_hwirq irq (assign_msi_times k 0).2).1).1 =
      ((irqd_to_hwirq irq : Nat) : Int) := by
  rw [assign_msi_times_empty k hk] at hassigned ⊢
  obtain ⟨i, hi, hcast⟩ := List.mem_map.mp hassigned
  have hik : i < k := List.mem_range.mp hi
  have hii : i = irqd_to_hwirq irq := Int.ofNat.inj hcast
  subst hii
  have hset : (2 ^ k - 1).testBit (irqd_to_hwirq irq) = true := by simp [hik]
  have hword : 2 ^ k - 1 < 2 ^ BITS_PER_LONG := by
    have h1 : 2 ^ k ≤ 2 ^ BITS_PER_LONG :=
      Nat.pow_le_pow_right (by decide) (by simp only [MICROSEMI_NUM_MSI_IRQS, BITS_PER_LONG] at *; omega)
    have h2 : 0 < 2 ^ k := Nat.two_pow_pos k
    omega
  show (microsemi_pcie_assign_msi
    (microsemi_pcie_destroy_msi irqd_to_hwirq irq (2 ^ k - 1)).1).1 = _
  rw [destroy_msi_of_set _ _ _ hset]
  have hclear : (clear_bit (irqd_to_hwirq irq) (2 ^ k - 1)).testBit (irqd_to_hwirq irq) = false := by
    rw [testBit_clear_bit _ _ _ hword]
    simp
  have hbelow : ∀ j, j < irqd_to_hwirq irq →
      (clear_bit (irqd_to_hwirq irq) (2 ^ k - 1)).testBit j = true := by
    intro j hj
    rw [testBit_clear_bit _ _ _ hword, Nat.testBit_two_pow_sub_one]
    have h1 : j < k := by omega
    have h2 : irqd_to_hwirq irq ≠ j := by omega
    simp [h1, h2]
  rw [assign_msi_of_lowest _ (irqd_to_hwirq irq) (by omega) hclear hbelow]

/-- Witness of C4: five vectors allocated, vector 2 freed and handed out again. -/
theorem destroy_then_assign_returns_same_id_witness :
    (microsemi_pcie_assign_msi
      (microsemi_pcie_destroy_msi (fun irq => irq - 100) 102 (assign_msi_times 5 0).2).1).1 =
      (2 : Int) :=
  destroy_then_assign_returns_same_id (fun irq => irq - 100) 5 102 (by decide) (by decide)

/-- C5: for an id in `[0, 32)` whose bit is clear, `microsemi_pcie_destroy_msi`
emits the "Trying to free unused MSI" diagnostic and leaves the bitmap as it
was, and a repeated call gives the same diagnostic and the same bitmap; for an
id whose bit is set it emits nothing and clears that bit and no other. -/
theorem destroy_msi_reports_double_free (irqd_to_hwirq : Nat → Nat) (irq bitmap : Nat)
    (hbitmap : bitmap < 2 ^ MICROSEMI_NUM_MSI_IRQS)
    (hid : irqd_to_hwirq irq < MICROSEMI_NUM_MSI_IRQS) :
    (bitmap.testBit (irqd_to_hwirq irq) = false →
      microsemi_pcie_destroy_msi irqd_to_hwirq irq bitmap =
        (bitmap, [Diag.free_unused_msi irq]) ∧
      microsemi_pcie_destroy_msi irqd_to_hwirq irq
          (microsemi_pcie_destroy_msi irqd_to_hwirq irq bitmap).1 =
        (bitmap, [Diag.free_unused_msi irq])) ∧
    (bitmap.testBit (irqd_to_hwirq irq) = true →
      (microsemi_pcie_destroy_msi irqd_to_hwirq irq bitmap).2 = [] ∧
      ∀ j, (microsemi_pcie_destroy_msi irqd_to_hwirq irq bitmap).1.testBit j =
        (bitmap.testBit j && !decide (j = irqd_to_hwirq irq))) := by
  have _hrange := hid
  have hword : bitmap < 2 ^ BITS_PER_LONG :=
    Nat.lt_of_lt_of_le hbitmap (Nat.pow_le_pow_right (by decide) (by decide))
  constructor
  · intro hclear
    rw [destroy_msi_of_clear _ _ _ hclear]
    exact ⟨rfl, destroy_msi_of_clear _ _ _ hclear⟩
  · intro hset
    rw [destroy_msi_of_set _ _ _ hset]
    refine ⟨rfl, ?_⟩
    intro j
    show (clear_bit (irqd_to_hwirq irq) bitmap).testBit j = _
    rw [testBit_clear_bit _ _ _ hword]
    by_cases hj : j = irqd_to_hwirq irq
    · subst hj
      simp
    · have hj2 : irqd_to_hwirq irq ≠ j := fun h => hj h.symm
      simp [hj, hj2]

/-- Witness of C5 at the bitmap `0b1011`, for the clear bit 2. -/
theorem destroy_msi_reports_double_free_witness :
    ((0b1011 : Nat).testBit 2 = false →
      microsemi_pcie_destroy_msi (fun irq => irq - 100) 102 0b1011 =
        (0b1011, [Diag.free_unused_msi 102]) ∧
      microsemi_pcie_destroy_msi (fun irq => irq - 100) 102
          (microsemi_pcie_destroy_msi (fun irq => irq - 100) 102 0b1011).1 =
        (0b1011, [Diag.free_unused_msi 102])) ∧
    ((0b1011 : Nat).testBit 2 = true →
      (microsemi_pcie_destroy_msi (fun irq => irq - 100) 102 0b1011).2 = [] ∧
      ∀ j, (microsemi_pcie_destroy_msi (fun irq => irq - 100) 102 0b1011).1.testBit j =
        ((0b1011 : Nat).testBit j && !decide (j = 2))) :=
  destroy_msi_reports_double_free (fun irq => irq - 100) 102 0b1011 (by decide) (by decide)

theorem MsiPool.consistent_empty : MsiPool.Consistent ⟨0, []⟩ := by
  refine ⟨by decide, ?_, List.nodup_nil⟩
  intro i
  simp

theorem MsiPool.consistent_step (irqd_to_hwirq : Nat → Nat) (s : MsiPool) (op : MsiOp)
    (hs : s.Consistent) : (s.step irqd_to_hwirq op).Consistent := by
  obtain ⟨hlt, hbits, hnodup⟩ := hs
  cases op with
  | assign =>
    obtain ⟨_, h2, h3⟩ := find_first_zero_bit_spec s.msi_irq_in_use MICROSEMI_NUM_MSI_IRQS
    by_cases hpos :
        find_first_zero_bit s.msi_irq_in_use MICROSEMI_NUM_MSI_IRQS < MICROSEMI_NUM_MSI_IRQS
    · have hret := assign_msi_of_lowest s.msi_irq_in_use _ hpos (h3 hpos) h2
      have hnn : (0 : Int) ≤
          (find_first_zero_bit s.msi_irq_in_use MICROSEMI_NUM_MSI_IRQS : Int) :=
        Int.ofNat_nonneg _
      simp only [MsiPool.step, hret, if_pos hnn, Int.toNat_ofNat]
      refine ⟨set_bit_lt _ _ _ hpos hlt, ?_, ?_⟩
      · intro i
        show (set_bit _ s.msi_irq_in_use).testBit i = true ↔ _
        rw [testBit_set_bit, List.mem_cons, Bool.or_eq_true, hbits i, decide_eq_true_eq]
        constructor
        · rintro (h | h)
          · exact Or.inr h
          · exact Or.inl h.symm
        · rintro (h | h)
          · exact Or.inr h.symm
          · exact Or.inl h
      · show (_ :: s.outstanding).Nodup
        refine List.nodup_cons.mpr ⟨?_, hnodup⟩
        intro hmem
        have hset := (hbits _).mpr hmem
        rw [h3 hpos] at hset
        exact Bool.noConfusion hset
    · have hfull : ∀ i, i < MICROSEMI_NUM_MSI_IRQS → s.msi_irq_in_use.testBit i = true :=
        fun i hi => h2 i (by omega)
      have hret := assign_msi_of_full s.msi_irq_in_use hfull
      have hneg : ¬ (0 : Int) ≤ -ENOSPC := by decide
      simp only [MsiPool.step, hret, if_neg hneg]
      exact ⟨hlt, hbits, hnodup⟩
  | destroy irq =>
    have hword : s.msi_irq_in_use < 2 ^ BITS_PER_LONG :=
      Nat.lt_of_lt_of_le hlt (Nat.pow_le_pow_right (by decide) (by decide))
    by_cases hset : s.msi_irq_in_use.testBit (irqd_to_hwirq irq) = true
    · simp only [MsiPool.step, destroy_msi_of_set _ _ _ hset]
      refine ⟨clear_bit_lt _ _ _ hlt, ?_, hnodup.filter _⟩
      intro i
      show (clear_bit _ s.msi_irq_in_use).testBit i = true ↔ _
      rw [testBit_clear_bit _ _ _ hword, List.mem_filter, Bool.and_eq_true, hbits i]
      constructor
      · rintro ⟨h1, h2⟩
        refine ⟨h1, ?_⟩
        have hne : irqd_to_hwirq irq ≠ i := by simpa using h2
        simpa using fun h => hne h.symm
      · rintro ⟨h1, h2⟩
        refine ⟨h1, ?_⟩
        have hne : i ≠ irqd_to_hwirq irq := by simpa using h2
        simpa using fun h => hne h.symm
    · have hclear : s.msi_irq_in_use.testBit (irqd_to_hwirq irq) = false := by
        simpa using hset
      simp only [MsiPool.step, destroy_msi_of_clear _ _ _ hclear]
      refine ⟨hlt, ?_, hnodup.filter _⟩
      intro i
      show s.msi_irq_in_use.testBit i = true ↔ _
      rw [List.mem_filter, hbits i]
      constructor
      · intro h1
        refine ⟨h1, ?_⟩
        have hne : i ≠ irqd_to_hwirq irq := by
          intro h
          subst h
          have := (hbits _).mpr h1
          rw [hclear] at this
          exact Bool.noConfusion this
        simpa using hne
      · exact fun h => h.1

theorem MsiPool.consistent_foldl (irqd_to_hwirq : Nat → Nat) (ops : List MsiOp) :
    ∀ s : MsiPool, s.Consistent →
      (ops.foldl (MsiPool.step irqd_to_hwirq) s).Consistent := by
  induction ops with
  | nil =>
    intro s hs
    exact hs
  | cons op ops ih =>
    intro s hs
    exact ih _ (MsiPool.consistent_step irqd_to_hwirq s op hs)

/-- C6: after any finite sequence of allocations and frees applied to the empty
pool, bit `i` of the in-use bitmap is set if and only if id `i` was returned by a
successful allocation and has not been freed since; and no id is outstanding
twice. -/
theorem msi_bitmap_tracks_outstanding (irqd_to_hwirq : Nat → Nat)
    (hmap : ∀ irq, irqd_to_hwirq irq < MICROSEMI_NUM_MSI_IRQS) (ops : List MsiOp) :
    (∀ i, (MsiPool.run irqd_to_hwirq ops).msi_irq_in_use.testBit i = true ↔
      i ∈ (MsiPool.run irqd_to_hwirq ops).outstanding) ∧
    (MsiPool.run irqd_to_hwirq ops).outstanding.Nodup := by
  have _hdomain := hmap
  exact (MsiPool.consistent_foldl irqd_to_hwirq ops _ MsiPool.consistent_empty).2

/-- Witness of C6: three allocations, a free of vector 1, a second free of it,
and one more allocation. -/
theorem msi_bitmap_tracks_outstanding_witness :
    (∀ i, (MsiPool.run (fun irq => irq % 32)
        [MsiOp.assign, MsiOp.assign, MsiOp.assign, MsiOp.destroy 33, MsiOp.destroy 33,
          MsiOp.assign]).msi_irq_in_use.testBit i = true ↔
      i ∈ (MsiPool.run (fun irq => irq % 32)
        [MsiOp.assign, MsiOp.assign, MsiOp.assign, MsiOp.destroy 33, MsiOp.destroy 33,
          MsiOp.assign]).outstanding) ∧
    (MsiPool.run (fun irq => irq % 32)
        [MsiOp.assign, MsiOp.assign, MsiOp.assign, MsiOp.destroy 33, MsiOp.destroy 33,
          MsiOp.assign]).outstanding.Nodup :=
  msi_bitmap_tracks_outstanding (fun irq => irq % 32)
    (fun irq => Nat.mod_lt irq (by decide)) _

/-! ## Properties of the link gate and of the ECAM address computation -/

/-- C7: `microsemi_pcie_valid_device` accepts an access exactly when it is to
devfn 0 of the root bus, or to a bus other than the root bus while the link is
up; on the root bus the answer does not depend on the link, and on any other
bus it is the value of `microsemi_pcie_link_up` for every devfn. -/
theorem valid_device_iff (bus : pci_bus) (devfn : Nat) :
    (microsemi_pcie_valid_device bus devfn = true ↔
      (bus.number = bus.sysdata.root_busno ∧ devfn = 0) ∨
      (bus.number ≠ bus.sysdata.root_busno ∧ microsemi_pcie_link_up bus.sysdata = true)) ∧
    (bus.number = bus.sysdata.root_busno →
      microsemi_pcie_valid_device bus devfn = decide (devfn = 0)) ∧
    (bus.number ≠ bus.sysdata.root_busno →
      microsemi_pcie_valid_device bus devfn = microsemi_pcie_link_up bus.sysdata) := by
  unfold microsemi_pcie_valid_device
  by_cases hroot : bus.number = bus.sysdata.root_busno
  · by_cases hdev : devfn = 0
    · simp [hroot, hdev]
    · have hpos : devfn > 0 := Nat.pos_of_ne_zero hdev
      simp [hroot, hdev, hpos]
  · cases hlink : microsemi_pcie_link_up bus.sysdata <;> simp [hroot, hlink]

theorem link_up_iff_bit4 (port : microsemi_pcie_port) :
    microsemi_pcie_link_up port = (port.reg_ctrl_apb LTSSM_STATE).testBit 4 := by
  have h := test_bit_eq_testBit 4 (port.reg_ctrl_apb LTSSM_STATE)
  unfold test_bit BIT_MASK at h
  unfold microsemi_pcie_link_up LTSSM_L0_STATE
  rw [← h]
  cases hb : (port.reg_ctrl_apb LTSSM_STATE &&& 1 <<< 4 != 0)
  · have hb2 : (port.reg_ctrl_apb LTSSM_STATE &&& 16 != 0) = false := hb
    simp [hb2]
  · have hb2 : (port.reg_ctrl_apb LTSSM_STATE &&& 16 != 0) = true := hb
    simp [hb2]

/-- C8: on the value `0x11` read from the LTSSM state register, which is not
the L0 encoding `LTSSM_L0_STATE`, `microsemi_pcie_link_up` returns true; on the
L0 encoding itself it returns true and on `0` it returns false. -/
theorem link_up_true_outside_L0 :
    microsemi_pcie_link_up ⟨0x30000000, fun _ => 0x11, 0⟩ = true ∧
    (0x11 : Nat) ≠ LTSSM_L0_STATE ∧
    microsemi_pcie_link_up ⟨0x30000000, fun _ => LTSSM_L0_STATE, 0⟩ = true ∧
    microsemi_pcie_link_up ⟨0x30000000, fun _ => 0, 0⟩ = false := by
  decide

theorem relbus_in_range (bus : pci_bus) (devfn : Nat) (hbus : bus.number < 256)
    (hdevfn : devfn < 256) :
    relbus bus devfn = ((bus.number * 2 ^ 20 + devfn * 2 ^ 12 : Nat) : Int) ∧
    (bus.number <<< ECAM_BUS_NUM_SHIFT) ||| (devfn <<< ECAM_DEV_NUM_SHIFT) =
      bus.number * 2 ^ 20 + devfn * 2 ^ 12 := by
  have hor : (bus.number <<< ECAM_BUS_NUM_SHIFT) ||| (devfn <<< ECAM_DEV_NUM_SHIFT) =
      bus.number * 2 ^ 20 + devfn * 2 ^ 12 := by
    simp only [ECAM_BUS_NUM_SHIFT, ECAM_DEV_NUM_SHIFT, Nat.shiftLeft_eq]
    have hd : devfn * 2 ^ 12 < 2 ^ 20 := by omega
    rw [Nat.mul_comm bus.number (2 ^ 20), ← Nat.mul_add_lt_is_or hd]
  refine ⟨?_, hor⟩
  have hmod : (devfn <<< ECAM_DEV_NUM_SHIFT) % 2 ^ 32 = devfn <<< ECAM_DEV_NUM_SHIFT := by
    apply Nat.mod_eq_of_lt
    simp only [ECAM_DEV_NUM_SHIFT, Nat.shiftLeft_eq]
    omega
  unfold relbus to_int
  rw [hmod, hor]
  have hsmall : (bus.number * 2 ^ 20 + devfn * 2 ^ 12) % 2 ^ 32 =
      bus.number * 2 ^ 20 + devfn * 2 ^ 12 := by
    apply Nat.mod_eq_of_lt
    omega
  rw [hsmall]
  have hlt : bus.number * 2 ^ 20 + devfn * 2 ^ 12 < 2 ^ 31 := by omega
  rw [if_pos hlt]

theorem map_bus_ptr_of_invalid (bus : pci_bus) (devfn : Nat) (offset : Int)
    (hinvalid : microsemi_pcie_valid_device bus devfn = false) :
    microsemi_pcie_map_bus_ptr bus devfn offset = 0 := by
  unfold microsemi_pcie_map_bus_ptr microsemi_pcie_map_bus
  simp [hinvalid]

theorem map_bus_ptr_of_valid (bus : pci_bus) (devfn offset : Nat)
    (hbus : bus.number < 256) (hdevfn : devfn < 256) (hoffset : offset < 4096)
    (hwin : bus.sysdata.reg_base + 2 ^ 28 ≤ 2 ^ 64)
    (hvalid : microsemi_pcie_valid_device bus devfn = true) :
    microsemi_pcie_map_bus_ptr bus devfn (offset : Int) =
      bus.sysdata.reg_base + bus.number * 2 ^ 20 + devfn * 2 ^ 12 + offset := by
  have hr := (relbus_in_range bus devfn hbus hdevfn).1
  unfold microsemi_pcie_map_bus_ptr microsemi_pcie_map_bus
  simp only [hvalid, Bool.not_true, Bool.false_eq_true, if_false, hr]
  omega

/-- Outside the register offsets the pointer can be `NULL` for an accepted
access: with the window mapped at `0x30000000`, bus 0, devfn 0 of root bus 0 is
accepted, and `where = -0x30000000` makes the sum 0. -/
theorem map_bus_ptr_null_outside_offsets :
    microsemi_pcie_valid_device ⟨0, ⟨0x30000000, fun _ => 0, 0⟩⟩ 0 = true ∧
    microsemi_pcie_map_bus_ptr ⟨0, ⟨0x30000000, fun _ => 0, 0⟩⟩ 0 (-0x30000000) = 0 := by
  decide

/-- C9: for a bus and a devfn in 0..255 and a register offset in 0..4095, on a
port whose configuration window is mapped at a non-`NULL` address with its
2^28 bytes inside the 64-bit address space, the pointer
`microsemi_pcie_map_bus` returns is `NULL` exactly when
`microsemi_pcie_valid_device` rejects the access, and is the address
`reg_base + (bus << 20 | devfn << 12) + offset` otherwise; with root bus 0 it is
`NULL` for bus 0, devfn 1, offset 0, and it is `NULL` for any bus other than
the root bus while the link is down. -/
theorem map_bus_null_iff_invalid (bus : pci_bus) (devfn offset : Nat)
    (hbus : bus.number < 256) (hdevfn : devfn < 256) (hoffset : offset < 4096)
    (hbase : 0 < bus.sysdata.reg_base) (hwin : bus.sysdata.reg_base + 2 ^ 28 ≤ 2 ^ 64) :
    (microsemi_pcie_map_bus_ptr bus devfn (offset : Int) = 0 ↔
      microsemi_pcie_valid_device bus devfn = false) ∧
    (microsemi_pcie_valid_device bus devfn = true →
      microsemi_pcie_map_bus_ptr bus devfn (offset : Int) =
        bus.sysdata.reg_base + bus.number * 2 ^ 20 + devfn * 2 ^ 12 + offset) ∧
    (∀ port : microsemi_pcie_port, port.root_busno = 0 →
      microsemi_pcie_map_bus_ptr ⟨0, port⟩ 1 0 = 0) ∧
    (bus.number ≠ bus.sysdata.root_busno → microsemi_pcie_link_up bus.sysdata = false →
      microsemi_pcie_map_bus_ptr bus devfn (offset : Int) = 0) := by
  refine ⟨?_, map_bus_ptr_of_valid bus devfn offset hbus hdevfn hoffset hwin, ?_, ?_⟩
  · constructor
    · intro hnull
      cases hv : microsemi_pcie_valid_device bus devfn
      · rfl
      · rw [map_bus_ptr_of_valid bus devfn offset hbus hdevfn hoffset hwin hv] at hnull
        omega
    · exact map_bus_ptr_of_invalid bus devfn _
  · intro port hport
    apply map_bus_ptr_of_invalid
    unfold microsemi_pcie_valid_device
    simp [hport]
  · intro hroot hlink
    apply map_bus_ptr_of_invalid
    unfold microsemi_pcie_valid_device
    simp [hroot, hlink]

/-- Witness of C9: the window mapped at `0x30000000`, root bus 0 with the link
down; bus 0 devfn 0 offset 0 is accepted and gets the base address, not
`NULL`. -/
theorem map_bus_null_iff_invalid_witness :
    microsemi_pcie_map_bus_ptr ⟨0, ⟨0x30000000, fun _ => 0, 0⟩⟩ 0 ((0 : Nat) : Int) =
      0x30000000 :=
  (map_bus_null_iff_invalid ⟨0, ⟨0x30000000, fun _ => 0, 0⟩⟩ 0 0
    (by decide) (by decide) (by decide) (by decide) (by decide)).2.1 (by decide)

/-- C10: for a bus in 0..255, a devfn in 0..255 and an offset in 0..4095 whose
access is valid, `microsemi_pcie_map_bus` returns
`reg_base + ((bus << 20) | (devfn << 12)) + offset`, which is
`reg_base + bus * 2^20 + devfn * 2^12 + offset`; in the offset from the base,
bits [27:20] are the bus, bits [19:12] the devfn and bits [11:0] the register
offset.  With base `0x30000000` and root bus 0, bus 1 devfn 0 offset `0x10`
under a link that is up gives `0x30100010`, and bus 0 devfn 0 offset 0 gives
`0x30000000`. -/
theorem map_bus_ecam_address (bus : pci_bus) (devfn offset : Nat)
    (hbus : bus.number < 256) (hdevfn : devfn < 256) (hoffset : offset < 4096)
    (hvalid : microsemi_pcie_valid_device bus devfn = true) :
    microsemi_pcie_map_bus bus devfn (offset : Int) =
      some ((bus.sysdata.reg_base : Int) +
        (((bus.number <<< ECAM_BUS_NUM_SHIFT) ||| (devfn <<< ECAM_DEV_NUM_SHIFT) : Nat) : Int) +
        (offset : Int)) ∧
    microsemi_pcie_map_bus bus devfn (offset : Int) =
      some (((bus.sysdata.reg_base + bus.number * 2 ^ 20 + devfn * 2 ^ 12 + offset : Nat) : Int)) ∧
    (bus.number * 2 ^ 20 + devfn * 2 ^ 12 + offset) / 2 ^ 20 % 2 ^ 8 = bus.number ∧
    (bus.number * 2 ^ 20 + devfn * 2 ^ 12 + offset) / 2 ^ 12 % 2 ^ 8 = devfn ∧
    (bus.number * 2 ^ 20 + devfn * 2 ^ 12 + offset) % 2 ^ 12 = offset ∧
    microsemi_pcie_map_bus ⟨1, ⟨0x30000000, fun _ => LTSSM_L0_STATE, 0⟩⟩ 0 0x10 =
      some 0x30100010 ∧
    microsemi_pcie_map_bus ⟨0, ⟨0x30000000, fun _ => 0, 0⟩⟩ 0 0 = some 0x30000000 := by
  obtain ⟨hrel, hor⟩ := relbus_in_range bus devfn hbus hdevfn
  have hmap : microsemi_pcie_map_bus bus devfn (offset : Int) =
      some ((bus.sysdata.reg_base : Int) + relbus bus devfn + (offset : Int)) := by
    unfold microsemi_pcie_map_bus
    simp [hvalid]
  refine ⟨?_, ?_, by omega, by omega, by omega, by decide, by decide⟩
  · rw [hmap, hrel, hor]
  · rw [hmap, hrel]
    congr 1
    push_cast
    ring

/-- Witness of C10: bus 1, devfn 0, offset `0x10` behind root bus 0 with the
link up. -/
theorem map_bus_ecam_address_witness :
    microsemi_pcie_map_bus ⟨1, ⟨0x30000000, fun _ => LTSSM_L0_STATE, 0⟩⟩ 0 ((0x10 : Nat) : Int) =
      some 0x30100010 :=
  (map_bus_ecam_address ⟨1, ⟨0x30000000, fun _ => LTSSM_L0_STATE, 0⟩⟩ 0 0x10
    (by decide) (by decide) (by decide) (by decide)).2.1

/-! ## Facts about the set-bit scans -/

theorem find_next_set_spec (addr : Nat) : ∀ n i,
    i ≤ find_next_set addr n i ∧ find_next_set addr n i ≤ i + n ∧
    (∀ j, i ≤ j → j < find_next_set addr n i → addr.testBit j = false) ∧
    (find_next_set addr n i < i + n → addr.testBit (find_next_set addr n i) = true) := by
  intro n
  induction n with
  | zero =>
    intro i
    simp only [find_next_set]
    refine ⟨Nat.le_refl _, Nat.le_refl _, ?_, ?_⟩
    · intro j h1 h2
      omega
    · intro h
      omega
  | succ n ih =>
    intro i
    simp only [find_next_set]
    by_cases hb : test_bit i addr = true
    · rw [if_pos hb]
      refine ⟨Nat.le_refl _, by omega, ?_, ?_⟩
      · intro j h1 h2
        omega
      · intro _
        rw [← test_bit_eq_testBit]
        exact hb
    · rw [if_neg hb]
      obtain ⟨h1, h2, h3, h4⟩ := ih (i + 1)
      refine ⟨by omega, by omega, ?_, ?_⟩
      · intro j hij hj
        by_cases hji : j = i
        · subst hji
          rw [← test_bit_eq_testBit]
          simpa using hb
        · exact h3 j (by omega) hj
      · intro h
        exact h4 (by omega)

/-- What `find_next_bit` computes: an index from `offset` up to `size`, with
only clear bits between `offset` and it, whose own bit is set when it is below
`size`. -/
theorem find_next_bit_spec (addr size offset : Nat) (hoff : offset ≤ size) :
    offset ≤ find_next_bit addr size offset ∧ find_next_bit addr size offset ≤ size ∧
    (∀ j, offset ≤ j → j < find_next_bit addr size offset → addr.testBit j = false) ∧
    (find_next_bit addr size offset < size →
      addr.testBit (find_next_bit addr size offset) = true) := by
  unfold find_next_bit
  by_cases hge : offset ≥ size
  · rw [if_pos hge]
    refine ⟨hoff, Nat.le_refl _, ?_, ?_⟩
    · intro j h1 h2
      omega
    · intro h
      omega
  · rw [if_neg hge]
    obtain ⟨h1, h2, h3, h4⟩ := find_next_set_spec addr (size - offset) offset
    refine ⟨h1, by omega, h3, ?_⟩
    intro h
    exact h4 (by omega)

theorem find_first_bit_eq (addr size p : Nat) (hp : p < size)
    (hset : addr.testBit p = true) (hbelow : ∀ j, j < p → addr.testBit j = false) :
    find_first_bit addr size = p := by
  obtain ⟨_, h2, h3, h4⟩ := find_next_bit_spec addr size 0 (Nat.zero_le _)
  unfold find_first_bit
  by_contra hne
  rcases Nat.lt_or_gt_of_ne hne with h | h
  · have h5 := h4 (by omega)
    rw [hbelow _ h] at h5
    exact Bool.noConfusion h5
  · have h5 := h3 p (Nat.zero_le _) h
    rw [hset] at h5
    exact Bool.noConfusion h5

theorem filter_range'_clear (addr a n : Nat)
    (hclear : ∀ j, a ≤ j → j < a + n → addr.testBit j = false) :
    (List.range' a n).filter (fun b => addr.testBit b) = [] := by
  rw [List.filter_eq_nil_iff]
  intro j hj
  rw [List.mem_range'_1] at hj
  rw [hclear j hj.1 hj.2]
  exact Bool.false_ne_true

theorem for_each_set_bit_loop_eq (addr size : Nat) : ∀ fuel bit, bit ≤ size →
    (bit < size → addr.testBit bit = true) → size - bit ≤ fuel →
    for_each_set_bit_loop addr size fuel bit =
      (List.range' bit (size - bit)).filter (fun b => addr.testBit b) := by
  intro fuel
  induction fuel with
  | zero =>
    intro bit hle _ hfuel
    have h0 : size - bit = 0 := by omega
    simp [for_each_set_bit_loop, h0]
  | succ fuel ih =>
    intro bit hle hset hfuel
    simp only [for_each_set_bit_loop]
    by_cases hlt : bit < size
    · rw [if_pos hlt]
      obtain ⟨h1, h2, h3, h4⟩ := find_next_bit_spec addr size (bit + 1) (by omega)
      rw [ih _ h2 h4 (by omega)]
      have hsplit : size - bit =
          1 + ((find_next_bit addr size (bit + 1) - (bit + 1)) +
            (size - find_next_bit addr size (bit + 1))) := by omega
      have happ := List.range'_append_1 (bit + 1)
        (find_next_bit addr size (bit + 1) - (bit + 1))
        (size - find_next_bit addr size (bit + 1))
      have hstart : bit + 1 + (find_next_bit addr size (bit + 1) - (bit + 1)) =
          find_next_bit addr size (bit + 1) := by omega
      rw [hstart] at happ
      rw [hsplit, Nat.add_comm 1, List.range'_succ, List.filter_cons, if_pos (hset hlt),
        Nat.add_comm (find_next_bit addr size (bit + 1) - (bit + 1)), ← happ,
        List.filter_append,
        filter_range'_clear addr (bit + 1) _ (fun j hj1 hj2 => h3 j hj1 (by omega)),
        List.nil_append]
    · rw [if_neg hlt]
      have h0 : size - bit = 0 := by omega
      simp [h0]

/-- The loop `for_each_set_bit` runs its body exactly for the set bits below
`size`, lowest first. -/
theorem for_each_set_bit_eq_filter (addr size : Nat) :
    for_each_set_bit addr size = (List.range size).filter (fun b => addr.testBit b) := by
  obtain ⟨_, h2, h3, h4⟩ := find_next_bit_spec addr size 0 (Nat.zero_le _)
  unfold for_each_set_bit find_first_bit
  rw [for_each_set_bit_loop_eq addr size size _ h2 h4 (by omega), List.range_eq_range']
  have happ := List.range'_append_1 0 (find_next_bit addr size 0)
    (size - find_next_bit addr size 0)
  rw [Nat.zero_add] at happ
  have hsz : size - find_next_bit addr size 0 + find_next_bit addr size 0 = size := by omega
  rw [hsz] at happ
  rw [← happ, List.filter_append,
    filter_range'_clear addr 0 _ (fun j hj1 hj2 => h3 j hj1 (by omega)), List.nil_append]

/-! ## Properties of the bridge initialisation -/

theorem init_port_of_probes_ok (env : InitEnv) (rs : List of_pci_range)
    (hok : env.probes_ok = true) (hranges : env.ranges = some rs) :
    microsemi_pcie_init_port env =
      (0, clear_and_disable_writes ++ atr0_writes env.regs ++
        (rs.map atr1_writes).flatten ++ final_writes env) := by
  unfold InitEnv.probes_ok at hok
  simp only [Bool.and_eq_true, beq_iff_eq, Bool.not_eq_true', ] at hok
  obtain ⟨⟨⟨⟨⟨h1, h2⟩, h3⟩, h4⟩, h5⟩, h6⟩ := hok
  unfold microsemi_pcie_init_port
  simp [h1, h2, h3, h4, h5, h6, hranges]

theorem atr_size_bit_two_pow (n : Nat) (hn1 : 1 ≤ n) (hn : n ≤ 63) :
    atr_size_bit (2 ^ n) = n - 1 := by
  have hffb : find_first_bit (2 ^ n) 64 = n := by
    apply find_first_bit_eq _ _ n (by omega) Nat.testBit_two_pow_self
    intro j hj
    exact Nat.testBit_two_pow_of_ne (by omega)
  unfold atr_size_bit
  rw [hffb]
  omega

theorem atr_srcaddr_param_eq_add (base bit : Nat) (hbase : base < 2 ^ 32)
    (halign : base % 2 ^ 7 = 0) (hbit : bit ≤ 62) (size : Nat) (hsize : atr_size_bit size = bit) :
    atr_srcaddr_param base size = base + 2 * bit + 1 := by
  unfold atr_srcaddr_param
  rw [hsize, Nat.shiftLeft_eq, Nat.mod_eq_of_lt hbase, Nat.mod_eq_of_lt (by omega),
    Nat.or_assoc]
  have h1 : bit * 2 ^ 1 ||| 1 = 2 * bit + 1 := by
    rw [Nat.mul_comm, ← Nat.mul_add_lt_is_or (by decide)]
  rw [h1]
  have h2 : base = 2 ^ 7 * (base / 2 ^ 7) := by omega
  have h3 : 2 ^ 7 * (base / 2 ^ 7) ||| (2 * bit + 1) =
      2 ^ 7 * (base / 2 ^ 7) + (2 * bit + 1) :=
    (Nat.mul_add_lt_is_or (by omega) _).symm
  rw [h2, h3]
  omega

theorem or_fields_eq_add (base bit : Nat) (halign : base % 2 ^ 7 = 0) (hbit : bit ≤ 62) :
    base ||| (bit <<< 1) ||| 1 = base + 2 * bit + 1 := by
  rw [Nat.shiftLeft_eq, Nat.or_assoc]
  have h1 : bit * 2 ^ 1 ||| 1 = 2 * bit + 1 := by
    rw [Nat.mul_comm, ← Nat.mul_add_lt_is_or (by decide)]
  rw [h1]
  have h2 : base = 2 ^ 7 * (base / 2 ^ 7) := by omega
  have h3 : 2 ^ 7 * (base / 2 ^ 7) ||| (2 * bit + 1) =
      2 ^ 7 * (base / 2 ^ 7) + (2 * bit + 1) :=
    (Nat.mul_add_lt_is_or (by omega) _).symm
  rw [h2, h3]
  omega

theorem resource_size_window (base n : Nat) (hn : n ≤ 63) (hbase : base < 2 ^ 32) :
    resource_size ⟨base, base + 2 ^ n - 1⟩ = 2 ^ n := by
  have hpos : 0 < 2 ^ n := Nat.two_pow_pos n
  have hle : 2 ^ n ≤ 2 ^ 63 := Nat.pow_le_pow_right (by decide) hn
  unfold resource_size
  simp only []
  generalize 2 ^ n = X at hpos hle ⊢
  omega

/-- C12: for a window of size `2 ^ n`, `1 ≤ n ≤ 63`, and a 32-bit source base
whose low 7 bits are zero, the source-window register value that
`microsemi_pcie_init_port` writes is `base | ((n - 1) << 1) | 1`: bits [6:1]
hold `floor(log2(size)) - 1`, bit 0 is set, bits [31:7] are those of the base;
and the destination register receives the low 32 bits of the destination
base.  This holds for translation table 0 and for translation table 1. -/
theorem atr_source_param_encoding (n base : Nat) (hn1 : 1 ≤ n) (hn : n ≤ 63)
    (hbase : base < 2 ^ 32) (halign : base % 2 ^ 7 = 0) :
    atr_srcaddr_param base (2 ^ n) = base ||| ((n - 1) <<< 1) ||| 1 ∧
    atr_size_field (atr_srcaddr_param base (2 ^ n)) = Nat.log2 (2 ^ n) - 1 ∧
    (atr_srcaddr_param base (2 ^ n)).testBit 0 = true ∧
    atr_srcaddr_param base (2 ^ n) / 2 ^ 7 = base / 2 ^ 7 ∧
    (∀ (env : InitEnv) (rs : List of_pci_range), env.probes_ok = true →
      env.ranges = some rs → env.regs = ⟨base, base + 2 ^ n - 1⟩ →
      (⟨RegBlock.reg_bridge_apb, ATR0_AXI4_SLV0_SRCADDR_PARAM,
          base ||| ((n - 1) <<< 1) ||| 1⟩ : RegWrite) ∈ (microsemi_pcie_init_port env).2 ∧
      (⟨RegBlock.reg_bridge_apb, ATR0_AXI4_SLV0_TRSL_ADDR_LSB, base⟩ : RegWrite) ∈
        (microsemi_pcie_init_port env).2) ∧
    (∀ (env : InitEnv) (rs : List of_pci_range) (dest : Nat), env.probes_ok = true →
      env.ranges = some rs → (⟨dest, base, 2 ^ n, IORESOURCE_MEM⟩ : of_pci_range) ∈ rs →
      (⟨RegBlock.reg_bridge_apb, ATR1_AXI4_SLV0_SRCADDR_PARAM,
          base ||| ((n - 1) <<< 1) ||| 1⟩ : RegWrite) ∈ (microsemi_pcie_init_port env).2 ∧
      (⟨RegBlock.reg_bridge_apb, ATR1_AXI4_SLV0_TRSL_ADDR_LSB, dest % 2 ^ 32⟩ : RegWrite) ∈
        (microsemi_pcie_init_port env).2) := by
  have hbit := atr_size_bit_two_pow n hn1 hn
  have hadd := atr_srcaddr_param_eq_add base (n - 1) hbase halign (by omega) (2 ^ n) hbit
  have hor := or_fields_eq_add base (n - 1) halign (by omega)
  have hval : atr_srcaddr_param base (2 ^ n) = base ||| ((n - 1) <<< 1) ||| 1 := by
    rw [hadd, hor]
  have hmod : 2 ^ n % 2 ^ 64 = 2 ^ n :=
    Nat.mod_eq_of_lt (Nat.pow_lt_pow_right (by decide) (by omega))
  refine ⟨hval, ?_, ?_, ?_, ?_, ?_⟩
  · rw [Nat.log2_two_pow, hadd]
    unfold atr_size_field
    rw [Nat.shiftRight_eq_div_pow]
    omega
  · rw [hadd, Nat.testBit_zero]
    simp only [decide_eq_true_eq]
    omega
  · rw [hadd]
    omega
  · intro env rs hok hranges hregs
    rw [init_port_of_probes_ok env rs hok hranges, hregs]
    simp only [atr0_writes, resource_size_window base n hn hbase, hval,
      Nat.mod_eq_of_lt hbase]
    simp
  · intro env rs dest hok hranges hmem
    rw [init_port_of_probes_ok env rs hok hranges]
    have hw : atr1_writes ⟨dest, base, 2 ^ n, IORESOURCE_MEM⟩ =
        [⟨RegBlock.reg_bridge_apb, ATR1_AXI4_SLV0_TRSL_PARAM, PCIE_TX_RX_INTERFACE⟩,
         ⟨RegBlock.reg_bridge_apb, ATR1_AXI4_SLV0_SRCADDR_PARAM,
           base ||| ((n - 1) <<< 1) ||| 1⟩,
         ⟨RegBlock.reg_bridge_apb, ATR1_AXI4_SLV0_TRSL_ADDR_LSB, dest % 2 ^ 32⟩] := by
      have hflag : IORESOURCE_MEM &&& IORESOURCE_TYPE_BITS = IORESOURCE_MEM := by decide
      simp only [atr1_writes, hflag, if_true, hmod, hval]
    have hin : atr1_writes ⟨dest, base, 2 ^ n, IORESOURCE_MEM⟩ ∈ rs.map atr1_writes :=
      List.mem_map_of_mem _ hmem
    have hfl : ∀ w ∈ atr1_writes ⟨dest, base, 2 ^ n, IORESOURCE_MEM⟩,
        w ∈ (rs.map atr1_writes).flatten :=
      fun w hw2 => List.mem_flatten.mpr ⟨_, hin, hw2⟩
    rw [hw] at hfl
    have h2 := hfl _ (List.mem_cons_of_mem _ (List.mem_cons_self _ _))
    have h3 := hfl _ (List.mem_cons_of_mem _ (List.mem_cons_of_mem _ (List.mem_cons_self _ _)))
    exact ⟨List.mem_append_left _ (List.mem_append_right _ h2),
      List.mem_append_left _ (List.mem_append_right _ h3)⟩

/-- Witness of C12: a 256 MiB window at `0x30000000`. -/
theorem atr_source_param_encoding_witness :
    atr_srcaddr_param 0x30000000 (2 ^ 28) = 0x30000000 ||| ((28 - 1) <<< 1) ||| 1 :=
  (atr_source_param_encoding 28 0x30000000 (by decide) (by decide) (by decide) (by decide)).1

/-- C13: with a configuration-space resource at `0x30000000` of 256 MiB and the
single memory range (cpu `0x40000000`, pci `0x0`, 64 MiB),
`microsemi_pcie_init_port` succeeds and leaves: table 0 source parameter
`0x30000037`, translated address `0x30000000`, kind 1 (configuration
interface); table 1 source parameter `0x40000033`, translated address `0`,
kind 0 (TX/RX interface); both source parameters have the enable bit 0 set. -/
theorem init_port_end_to_end (env : InitEnv) (flags : Nat) (hok : env.probes_ok = true)
    (hregs : env.regs = ⟨0x30000000, 0x3FFFFFFF⟩)
    (hranges : env.ranges = some [⟨0x0, 0x40000000, 0x4000000, flags⟩])
    (hmem : flags &&& IORESOURCE_TYPE_BITS = IORESOURCE_MEM) :
    (microsemi_pcie_init_port env).1 = 0 ∧
    resource_size env.regs = 256 * 2 ^ 20 ∧
    reg_after (microsemi_pcie_init_port env).2 RegBlock.reg_bridge_apb
      ATR0_AXI4_SLV0_SRCADDR_PARAM = some 0x30000037 ∧
    reg_after (microsemi_pcie_init_port env).2 RegBlock.reg_bridge_apb
      ATR0_AXI4_SLV0_TRSL_ADDR_LSB = some 0x30000000 ∧
    reg_after (microsemi_pcie_init_port env).2 RegBlock.reg_bridge_apb
      ATR0_AXI4_SLV0_TRSL_PARAM = some 1 ∧
    reg_after (microsemi_pcie_init_port env).2 RegBlock.reg_bridge_apb
      ATR1_AXI4_SLV0_SRCADDR_PARAM = some 0x40000033 ∧
    reg_after (microsemi_pcie_init_port env).2 RegBlock.reg_bridge_apb
      ATR1_AXI4_SLV0_TRSL_ADDR_LSB = some 0x00000000 ∧
    reg_after (microsemi_pcie_init_port env).2 RegBlock.reg_bridge_apb
      ATR1_AXI4_SLV0_TRSL_PARAM = some 0 ∧
    (0x30000037 : Nat).testBit 0 = true ∧ (0x40000033 : Nat).testBit 0 = true := by
  rw [init_port_of_probes_ok env _ hok hranges, hregs]
  have h1 : atr1_writes ⟨0x0, 0x40000000, 0x4000000, flags⟩ =
      [⟨RegBlock.reg_bridge_apb, ATR1_AXI4_SLV0_TRSL_PARAM, PCIE_TX_RX_INTERFACE⟩,
       ⟨RegBlock.reg_bridge_apb, ATR1_AXI4_SLV0_SRCADDR_PARAM,
         atr_srcaddr_param 0x40000000 (0x4000000 % 2 ^ 64)⟩,
       ⟨RegBlock.reg_bridge_apb, ATR1_AXI4_SLV0_TRSL_ADDR_LSB, 0x0 % 2 ^ 32⟩] := by
    simp only [atr1_writes, hmem, if_true]
  have hfl : (List.map atr1_writes [⟨0x0, 0x40000000, 0x4000000, flags⟩]).flatten =
      [⟨RegBlock.reg_bridge_apb, ATR1_AXI4_SLV0_TRSL_PARAM, PCIE_TX_RX_INTERFACE⟩,
       ⟨RegBlock.reg_bridge_apb, ATR1_AXI4_SLV0_SRCADDR_PARAM,
         atr_srcaddr_param 0x40000000 (0x4000000 % 2 ^ 64)⟩,
       ⟨RegBlock.reg_bridge_apb, ATR1_AXI4_SLV0_TRSL_ADDR_LSB, 0x0 % 2 ^ 32⟩] := by
    simp only [List.map_cons, List.map_nil, List.flatten_cons, List.flatten_nil,
      List.append_nil, h1]
  rw [hfl]
  refine ⟨rfl, by decide, ?_, ?_, ?_, ?_, ?_, ?_, by decide, by decide⟩ <;> rfl

/-- Witness of C13: the scenario with kernel-space mappings for both register
blocks and all bridge registers reading 0. -/
theorem init_port_end_to_end_witness :
    reg_after (microsemi_pcie_init_port
      ⟨some "pci", 0, ⟨0x30000000, 0x3FFFFFFF⟩, 0xffffffd000000000, 0, 0xffffffd010000000, 0,
        some [⟨0x0, 0x40000000, 0x4000000, 0x200⟩], fun _ => 0⟩).2 RegBlock.reg_bridge_apb
      ATR1_AXI4_SLV0_SRCADDR_PARAM = some 0x40000033 :=
  (init_port_end_to_end
    ⟨some "pci", 0, ⟨0x30000000, 0x3FFFFFFF⟩, 0xffffffd000000000, 0, 0xffffffd010000000, 0,
      some [⟨0x0, 0x40000000, 0x4000000, 0x200⟩], fun _ => 0⟩ 0x200
    (by decide) rfl rfl (by decide)).2.2.2.2.2.1

theorem not_two_pow_0x3000 : ¬ ∃ k, (0x3000 : Nat) = 2 ^ k := by
  rintro ⟨k, hk⟩
  have h12 : (0x3000 : Nat).testBit 12 = true := by decide
  have h13 : (0x3000 : Nat).testBit 13 = true := by decide
  rw [hk, Nat.testBit_two_pow] at h12 h13
  have e12 : k = 12 := by simpa using h12
  have e13 : k = 13 := by simpa using h13
  omega

/-- C11, as stated, fails: for a configuration resource of size `0x3000`, which
is not a power of two, and a memory range of size `0x3000`,
`microsemi_pcie_init_port` returns 0 and writes the registers of both
translation tables. -/
theorem init_port_accepts_non_power_of_two :
    resource_size ⟨0x30000000, 0x30002FFF⟩ = 0x3000 ∧
    (¬ ∃ k, (0x3000 : Nat) = 2 ^ k) ∧
    (microsemi_pcie_init_port
      ⟨some "pci", 0, ⟨0x30000000, 0x30002FFF⟩, 0xffffffd000000000, 0, 0xffffffd010000000, 0,
        some [⟨0x0, 0x40000000, 0x3000, 0x200⟩], fun _ => 0⟩).1 = 0 ∧
    reg_after (microsemi_pcie_init_port
      ⟨some "pci", 0, ⟨0x30000000, 0x30002FFF⟩, 0xffffffd000000000, 0, 0xffffffd010000000, 0,
        some [⟨0x0, 0x40000000, 0x3000, 0x200⟩], fun _ => 0⟩).2 RegBlock.reg_bridge_apb
      ATR0_AXI4_SLV0_SRCADDR_PARAM = some 0x30000017 ∧
    reg_after (microsemi_pcie_init_port
      ⟨some "pci", 0, ⟨0x30000000, 0x30002FFF⟩, 0xffffffd000000000, 0, 0xffffffd010000000, 0,
        some [⟨0x0, 0x40000000, 0x3000, 0x200⟩], fun _ => 0⟩).2 RegBlock.reg_bridge_apb
      ATR1_AXI4_SLV0_SRCADDR_PARAM = some 0x40000017 := by
  refine ⟨by decide, not_two_pow_0x3000, by decide, by decide, by decide⟩

/-- C11, amended: `microsemi_pcie_init_port` validates no window size.  Once
its probes succeed and the ranges parse, it returns 0 whatever the sizes are,
having written the three registers of translation table 0 and, for every
memory range supplied, the three registers of translation table 1, the size
field being `find_first_bit(size) - 1`. -/
theorem init_port_programs_any_size (env : InitEnv) (rs : List of_pci_range)
    (hok : env.probes_ok = true) (hranges : env.ranges = some rs) :
    (microsemi_pcie_init_port env).1 = 0 ∧
    (⟨RegBlock.reg_bridge_apb, ATR0_AXI4_SLV0_TRSL_PARAM, PCIE_CONFIG_INTERFACE⟩ : RegWrite) ∈
      (microsemi_pcie_init_port env).2 ∧
    (⟨RegBlock.reg_bridge_apb, ATR0_AXI4_SLV0_SRCADDR_PARAM,
        (env.regs.start % 2 ^ 32) |||
          ((((find_first_bit (resource_size env.regs) 64 + 2 ^ 64 - 1) % 2 ^ 64) % 2 ^ 32) <<< 1)
            % 2 ^ 32 ||| 1⟩ : RegWrite) ∈ (microsemi_pcie_init_port env).2 ∧
    (⟨RegBlock.reg_bridge_apb, ATR0_AXI4_SLV0_TRSL_ADDR_LSB, env.regs.start % 2 ^ 32⟩ :
      RegWrite) ∈ (microsemi_pcie_init_port env).2 ∧
    ∀ r ∈ rs, r.flags &&& IORESOURCE_TYPE_BITS = IORESOURCE_MEM →
      (⟨RegBlock.reg_bridge_apb, ATR1_AXI4_SLV0_TRSL_PARAM, PCIE_TX_RX_INTERFACE⟩ : RegWrite) ∈
        (microsemi_pcie_init_port env).2 ∧
      (⟨RegBlock.reg_bridge_apb, ATR1_AXI4_SLV0_SRCADDR_PARAM,
          (r.cpu_addr % 2 ^ 32) |||
            ((((find_first_bit (r.size % 2 ^ 64) 64 + 2 ^ 64 - 1) % 2 ^ 64) % 2 ^ 32) <<< 1)
              % 2 ^ 32 ||| 1⟩ : RegWrite) ∈ (microsemi_pcie_init_port env).2 ∧
      (⟨RegBlock.reg_bridge_apb, ATR1_AXI4_SLV0_TRSL_ADDR_LSB, r.pci_addr % 2 ^ 32⟩ :
        RegWrite) ∈ (microsemi_pcie_init_port env).2 := by
  rw [init_port_of_probes_ok env rs hok hranges]
  have h0 : ∀ w ∈ atr0_writes env.regs,
      w ∈ clear_and_disable_writes ++ atr0_writes env.regs ++
        (rs.map atr1_writes).flatten ++ final_writes env :=
    fun w hw => List.mem_append_left _ (List.mem_append_left _ (List.mem_append_right _ hw))
  refine ⟨rfl, h0 _ (List.mem_cons_self _ _),
    h0 _ (List.mem_cons_of_mem _ (List.mem_cons_self _ _)),
    h0 _ (List.mem_cons_of_mem _ (List.mem_cons_of_mem _ (List.mem_cons_self _ _))), ?_⟩
  intro r hr hmem
  have hw : atr1_writes r =
      [⟨RegBlock.reg_bridge_apb, ATR1_AXI4_SLV0_TRSL_PARAM, PCIE_TX_RX_INTERFACE⟩,
       ⟨RegBlock.reg_bridge_apb, ATR1_AXI4_SLV0_SRCADDR_PARAM,
         atr_srcaddr_param r.cpu_addr (r.size % 2 ^ 64)⟩,
       ⟨RegBlock.reg_bridge_apb, ATR1_AXI4_SLV0_TRSL_ADDR_LSB, r.pci_addr % 2 ^ 32⟩] := by
    simp only [atr1_writes, hmem, if_true]
  have h1 : ∀ w ∈ atr1_writes r,
      w ∈ clear_and_disable_writes ++ atr0_writes env.regs ++
        (rs.map atr1_writes).flatten ++ final_writes env :=
    fun w hw2 => List.mem_append_left _ (List.mem_append_right _
      (List.mem_flatten.mpr ⟨_, List.mem_map_of_mem _ hr, hw2⟩))
  rw [hw] at h1
  exact ⟨h1 _ (List.mem_cons_self _ _),
    h1 _ (List.mem_cons_of_mem _ (List.mem_cons_self _ _)),
    h1 _ (List.mem_cons_of_mem _ (List.mem_cons_of_mem _ (List.mem_cons_self _ _)))⟩

/-- Witness of the amended C11: a configuration resource and a memory range of
size `0x3000`. -/
theorem init_port_programs_any_size_witness :
    (microsemi_pcie_init_port
      ⟨some "pci", 0, ⟨0x30000000, 0x30002FFF⟩, 0xffffffd000000000, 0, 0xffffffd010000000, 0,
        some [⟨0x0, 0x40000000, 0x3000, 0x200⟩], fun _ => 0⟩).1 = 0 :=
  (init_port_programs_any_size
    ⟨some "pci", 0, ⟨0x30000000, 0x30002FFF⟩, 0xffffffd000000000, 0, 0xffffffd010000000, 0,
      some [⟨0x0, 0x40000000, 0x3000, 0x200⟩], fun _ => 0⟩
    [⟨0x0, 0x40000000, 0x3000, 0x200⟩] (by decide) rfl).1

theorem find_first_bit_lt_of_pos (s : Nat) (hs0 : 0 < s) (hs : s < 2 ^ 64) :
    find_first_bit s 64 < 64 := by
  obtain ⟨_, h2, h3, _⟩ := find_next_bit_spec s 64 0 (Nat.zero_le _)
  unfold find_first_bit
  by_contra hge
  have hzero : s = 0 := by
    apply Nat.eq_of_testBit_eq
    intro j
    rw [Nat.zero_testBit]
    by_cases hj : j < 64
    · exact h3 j (Nat.zero_le _) (by omega)
    · exact Nat.testBit_lt_two_pow
        (Nat.lt_of_lt_of_le hs (Nat.pow_le_pow_right (by decide) (by omega)))
  omega

/-- C14, as stated, fails: for a configuration resource of size `0x3000` the
source parameter written to translation table 0 is `0x30000017`, whose size
field 11 denotes a window of `0x1000` bytes, which is smaller than the resource
and not the enclosing power of two `0x4000`. -/
theorem atr0_window_not_enclosing :
    resource_size ⟨0x30000000, 0x30002FFF⟩ = 0x3000 ∧
    reg_after (microsemi_pcie_init_port
      ⟨some "pci", 0, ⟨0x30000000, 0x30002FFF⟩, 0xffffffd000000000, 0, 0xffffffd010000000, 0,
        some [], fun _ => 0⟩).2 RegBlock.reg_bridge_apb
      ATR0_AXI4_SLV0_SRCADDR_PARAM = some 0x30000017 ∧
    atr_size_field 0x30000017 = 11 ∧
    atr_size_bit 0x3000 = 11 ∧
    atr_window_size (atr_size_bit 0x3000) = 0x1000 ∧
    atr_window_size (atr_size_bit 0x3000) < 0x3000 := by
  refine ⟨by decide, by decide, by decide, by decide, by decide, by decide⟩

/-- C14, amended: for an even configuration-resource size `s` with
`0 < s < 2 ^ 64`, the window size that `microsemi_pcie_init_port` encodes for
translation table 0 is `2 ^ t`, where `t` is the index of the lowest set bit of
`s`; it is at most `s`, and it covers the resource exactly when `s` is a power
of two, in which case it is `s` itself. -/
theorem atr0_window_is_lowest_set_bit (s : Nat) (hs0 : 0 < s) (hs : s < 2 ^ 64)
    (heven : s % 2 = 0) :
    ∃ t, 1 ≤ t ∧ t < 64 ∧ s.testBit t = true ∧ (∀ j, j < t → s.testBit j = false) ∧
      atr_size_bit s = t - 1 ∧
      atr_window_size (atr_size_bit s) = 2 ^ t ∧
      atr_window_size (atr_size_bit s) ≤ s ∧
      (s ≤ atr_window_size (atr_size_bit s) ↔ ∃ k, s = 2 ^ k) := by
  obtain ⟨_, _, h3, h4⟩ := find_next_bit_spec s 64 0 (Nat.zero_le _)
  have hlt := find_first_bit_lt_of_pos s hs0 hs
  have hset : s.testBit (find_first_bit s 64) = true := h4 hlt
  have hclear : ∀ j, j < find_first_bit s 64 → s.testBit j = false :=
    fun j hj => h3 j (Nat.zero_le _) hj
  have hpos : 1 ≤ find_first_bit s 64 := by
    by_contra h0
    have hz : find_first_bit s 64 = 0 := by omega
    rw [hz, Nat.testBit_zero] at hset
    simp only [decide_eq_true_eq] at hset
    omega
  have hbit : atr_size_bit s = find_first_bit s 64 - 1 := by
    unfold atr_size_bit
    omega
  have hwin : atr_window_size (atr_size_bit s) = 2 ^ find_first_bit s 64 := by
    have e : find_first_bit s 64 - 1 + 1 = find_first_bit s 64 := by omega
    unfold atr_window_size
    rw [hbit, e]
  have hle : 2 ^ find_first_bit s 64 ≤ s := Nat.testBit_implies_ge hset
  refine ⟨find_first_bit s 64, hpos, hlt, hset, hclear, hbit, hwin, by rw [hwin]; exact hle, ?_⟩
  rw [hwin]
  constructor
  · intro h
    exact ⟨find_first_bit s 64, by omega⟩
  · rintro ⟨k, hk⟩
    have h : (2 ^ k).testBit (find_first_bit s 64) = true := by
      rw [← hk]
      exact hset
    rw [Nat.testBit_two_pow] at h
    have hkt : k = find_first_bit s 64 := by simpa using h
    rw [← hkt]
    exact Nat.le_of_eq hk

/-- Witness of the amended C14 at the size `0x3000`. -/
theorem atr0_window_is_lowest_set_bit_witness :
    ∃ t, 1 ≤ t ∧ t < 64 ∧ (0x3000 : Nat).testBit t = true ∧
      (∀ j, j < t → (0x3000 : Nat).testBit j = false) ∧
      atr_size_bit 0x3000 = t - 1 ∧
      atr_window_size (atr_size_bit 0x3000) = 2 ^ t ∧
      atr_window_size (atr_size_bit 0x3000) ≤ 0x3000 ∧
      (0x3000 ≤ atr_window_size (atr_size_bit 0x3000) ↔ ∃ k, (0x3000 : Nat) = 2 ^ k) :=
  atr0_window_is_lowest_set_bit 0x3000 (by decide) (by decide) (by decide)

theorem atr1_writes_of_mem (r : of_pci_range) (hmem : r.is_mem = true) :
    atr1_writes r =
      [⟨RegBlock.reg_bridge_apb, ATR1_AXI4_SLV0_TRSL_PARAM, PCIE_TX_RX_INTERFACE⟩,
       ⟨RegBlock.reg_bridge_apb, ATR1_AXI4_SLV0_SRCADDR_PARAM,
         atr_srcaddr_param r.cpu_addr (r.size % 2 ^ 64)⟩,
       ⟨RegBlock.reg_bridge_apb, ATR1_AXI4_SLV0_TRSL_ADDR_LSB, r.pci_addr % 2 ^ 32⟩] := by
  have h : r.flags &&& IORESOURCE_TYPE_BITS = IORESOURCE_MEM := by
    simpa [of_pci_range.is_mem] using hmem
  simp only [atr1_writes, h, if_true]

theorem atr1_writes_of_not_mem (r : of_pci_range) (hmem : r.is_mem = false) :
    atr1_writes r = [] := by
  have h : ¬ r.flags &&& IORESOURCE_TYPE_BITS = IORESOURCE_MEM := by
    simpa [of_pci_range.is_mem] using hmem
  simp only [atr1_writes, h, if_false]

/-- The three writes of the ranges loop for a memory range. -/
theorem flatten_atr1_writes (rs : List of_pci_range) :
    (rs.map atr1_writes).flatten =
      ((rs.filter of_pci_range.is_mem).map (fun r =>
        [(⟨RegBlock.reg_bridge_apb, ATR1_AXI4_SLV0_TRSL_PARAM, PCIE_TX_RX_INTERFACE⟩ : RegWrite),
         ⟨RegBlock.reg_bridge_apb, ATR1_AXI4_SLV0_SRCADDR_PARAM,
           atr_srcaddr_param r.cpu_addr (r.size % 2 ^ 64)⟩,
         ⟨RegBlock.reg_bridge_apb, ATR1_AXI4_SLV0_TRSL_ADDR_LSB, r.pci_addr % 2 ^ 32⟩])).flatten := by
  induction rs with
  | nil => rfl
  | cons r rs ih =>
    cases hmem : r.is_mem
    · rw [List.filter_cons_of_neg (by simp [hmem]), List.map_cons, List.flatten_cons,
        atr1_writes_of_not_mem r hmem, ih, List.nil_append]
    · rw [List.filter_cons_of_pos hmem, List.map_cons, List.flatten_cons,
        atr1_writes_of_mem r hmem, ih, List.map_cons, List.flatten_cons]

theorem filter_three_atr1 (l : List of_pci_range) :
    ((l.map (fun r =>
        [(⟨RegBlock.reg_bridge_apb, ATR1_AXI4_SLV0_TRSL_PARAM, PCIE_TX_RX_INTERFACE⟩ : RegWrite),
         ⟨RegBlock.reg_bridge_apb, ATR1_AXI4_SLV0_SRCADDR_PARAM,
           atr_srcaddr_param r.cpu_addr (r.size % 2 ^ 64)⟩,
         ⟨RegBlock.reg_bridge_apb, ATR1_AXI4_SLV0_TRSL_ADDR_LSB,
           r.pci_addr % 2 ^ 32⟩])).flatten).filter RegWrite.to_atr1 =
      (l.map (fun r =>
        [(⟨RegBlock.reg_bridge_apb, ATR1_AXI4_SLV0_TRSL_PARAM, PCIE_TX_RX_INTERFACE⟩ : RegWrite),
         ⟨RegBlock.reg_bridge_apb, ATR1_AXI4_SLV0_SRCADDR_PARAM,
           atr_srcaddr_param r.cpu_addr (r.size % 2 ^ 64)⟩,
         ⟨RegBlock.reg_bridge_apb, ATR1_AXI4_SLV0_TRSL_ADDR_LSB,
           r.pci_addr % 2 ^ 32⟩])).flatten ∧
    ((l.map (fun r =>
        [(⟨RegBlock.reg_bridge_apb, ATR1_AXI4_SLV0_TRSL_PARAM, PCIE_TX_RX_INTERFACE⟩ : RegWrite),
         ⟨RegBlock.reg_bridge_apb, ATR1_AXI4_SLV0_SRCADDR_PARAM,
           atr_srcaddr_param r.cpu_addr (r.size % 2 ^ 64)⟩,
         ⟨RegBlock.reg_bridge_apb, ATR1_AXI4_SLV0_TRSL_ADDR_LSB,
           r.pci_addr % 2 ^ 32⟩])).flatten).filter RegWrite.to_atr0 = [] ∧
    ((l.map (fun r =>
        [(⟨RegBlock.reg_bridge_apb, ATR1_AXI4_SLV0_TRSL_PARAM, PCIE_TX_RX_INTERFACE⟩ : RegWrite),
         ⟨RegBlock.reg_bridge_apb, ATR1_AXI4_SLV0_SRCADDR_PARAM,
           atr_srcaddr_param r.cpu_addr (r.size % 2 ^ 64)⟩,
         ⟨RegBlock.reg_bridge_apb, ATR1_AXI4_SLV0_TRSL_ADDR_LSB,
           r.pci_addr % 2 ^ 32⟩])).flatten).filter
        (fun w => w.block = RegBlock.reg_bridge_apb ∧ w.reg = ATR1_AXI4_SLV0_SRCADDR_PARAM) =
      l.map (fun r => ⟨RegBlock.reg_bridge_apb, ATR1_AXI4_SLV0_SRCADDR_PARAM,
        atr_srcaddr_param r.cpu_addr (r.size % 2 ^ 64)⟩) := by
  induction l with
  | nil => exact ⟨rfl, rfl, rfl⟩
  | cons r l ih =>
    obtain ⟨ih1, ih2, ih3⟩ := ih
    simp only [List.map_cons, List.flatten_cons, List.filter_append, ih1, ih2, ih3]
    exact ⟨rfl, rfl, rfl⟩

/-- C15, as stated, fails: with two memory ranges (cpu `0x40000000` and cpu
`0x50000000`, 64 MiB each) both are written to the same register
`ATR1_AXI4_SLV0_SRCADDR_PARAM`, and after initialisation that register holds
the second range only: the first window is no longer programmed. -/
theorem init_port_memory_ranges_share_slot :
    ((microsemi_pcie_init_port
      ⟨some "pci", 0, ⟨0x30000000, 0x3FFFFFFF⟩, 0xffffffd000000000, 0, 0xffffffd010000000, 0,
        some [⟨0x0, 0x40000000, 0x4000000, 0x200⟩, ⟨0x10000000, 0x50000000, 0x4000000, 0x200⟩],
        fun _ => 0⟩).2.filter
      (fun w => w.block = RegBlock.reg_bridge_apb ∧ w.reg = ATR1_AXI4_SLV0_SRCADDR_PARAM)) =
      [⟨RegBlock.reg_bridge_apb, ATR1_AXI4_SLV0_SRCADDR_PARAM, 0x40000033⟩,
       ⟨RegBlock.reg_bridge_apb, ATR1_AXI4_SLV0_SRCADDR_PARAM, 0x50000033⟩] ∧
    reg_after (microsemi_pcie_init_port
      ⟨some "pci", 0, ⟨0x30000000, 0x3FFFFFFF⟩, 0xffffffd000000000, 0, 0xffffffd010000000, 0,
        some [⟨0x0, 0x40000000, 0x4000000, 0x200⟩, ⟨0x10000000, 0x50000000, 0x4000000, 0x200⟩],
        fun _ => 0⟩).2 RegBlock.reg_bridge_apb ATR1_AXI4_SLV0_SRCADDR_PARAM =
      some 0x50000033 ∧
    reg_after (microsemi_pcie_init_port
      ⟨some "pci", 0, ⟨0x30000000, 0x3FFFFFFF⟩, 0xffffffd000000000, 0, 0xffffffd010000000, 0,
        some [⟨0x0, 0x40000000, 0x4000000, 0x200⟩, ⟨0x10000000, 0x50000000, 0x4000000, 0x200⟩],
        fun _ => 0⟩).2 RegBlock.reg_bridge_apb ATR1_AXI4_SLV0_TRSL_ADDR_LSB =
      some 0x10000000 := by
  refine ⟨by decide, by decide, by decide⟩

/-- C15, amended: for every range list supplied to `microsemi_pcie_init_port`,
every memory-type range is programmed, in the order supplied, into the one
translation table 1, whose registers are distinct from those of table 0;
non-memory ranges cause no translation-table write; table 0 is written once,
for the configuration space; and after initialisation table 1 holds the last
memory range supplied. -/
theorem init_port_memory_ranges_into_atr1 (env : InitEnv) (rs : List of_pci_range)
    (hok : env.probes_ok = true) (hranges : env.ranges = some rs) :
    (microsemi_pcie_init_port env).2.filter RegWrite.to_atr1 =
      ((rs.filter of_pci_range.is_mem).map (fun r =>
        [(⟨RegBlock.reg_bridge_apb, ATR1_AXI4_SLV0_TRSL_PARAM, PCIE_TX_RX_INTERFACE⟩ : RegWrite),
         ⟨RegBlock.reg_bridge_apb, ATR1_AXI4_SLV0_SRCADDR_PARAM,
           atr_srcaddr_param r.cpu_addr (r.size % 2 ^ 64)⟩,
         ⟨RegBlock.reg_bridge_apb, ATR1_AXI4_SLV0_TRSL_ADDR_LSB, r.pci_addr % 2 ^ 32⟩])).flatten ∧
    (microsemi_pcie_init_port env).2.filter RegWrite.to_atr0 = atr0_writes env.regs ∧
    (∀ w : RegWrite, ¬ (w.to_atr0 = true ∧ w.to_atr1 = true)) ∧
    reg_after (microsemi_pcie_init_port env).2 RegBlock.reg_bridge_apb
        ATR1_AXI4_SLV0_SRCADDR_PARAM =
      ((rs.filter of_pci_range.is_mem).getLast?).map
        (fun r => atr_srcaddr_param r.cpu_addr (r.size % 2 ^ 64)) := by
  obtain ⟨h1, h2, h3⟩ := filter_three_atr1 (rs.filter of_pci_range.is_mem)
  rw [init_port_of_probes_ok env rs hok hranges, flatten_atr1_writes rs]
  have c1 : clear_and_disable_writes.filter RegWrite.to_atr1 = [] := rfl
  have a1 : (atr0_writes env.regs).filter RegWrite.to_atr1 = [] := rfl
  have f1 : (final_writes env).filter RegWrite.to_atr1 = [] := rfl
  have c0 : clear_and_disable_writes.filter RegWrite.to_atr0 = [] := rfl
  have a0 : (atr0_writes env.regs).filter RegWrite.to_atr0 = atr0_writes env.regs := rfl
  have f0 : (final_writes env).filter RegWrite.to_atr0 = [] := rfl
  have hc : clear_and_disable_writes.filter
      (fun w => w.block = RegBlock.reg_bridge_apb ∧ w.reg = ATR1_AXI4_SLV0_SRCADDR_PARAM) =
      [] := rfl
  have ha : (atr0_writes env.regs).filter
      (fun w => w.block = RegBlock.reg_bridge_apb ∧ w.reg = ATR1_AXI4_SLV0_SRCADDR_PARAM) =
      [] := rfl
  have hf : (final_writes env).filter
      (fun w => w.block = RegBlock.reg_bridge_apb ∧ w.reg = ATR1_AXI4_SLV0_SRCADDR_PARAM) =
      [] := rfl
  refine ⟨?_, ?_, ?_, ?_⟩
  · rw [List.filter_append, List.filter_append, List.filter_append, c1, a1, f1, h1,
      List.nil_append, List.nil_append, List.append_nil]
  · rw [List.filter_append, List.filter_append, List.filter_append, c0, a0, f0, h2,
      List.nil_append, List.append_nil, List.append_nil]
  · intro w
    cases w with
    | mk block reg val =>
      simp only [RegWrite.to_atr0, RegWrite.to_atr1, ATR0_AXI4_SLV0_TRSL_PARAM,
        ATR0_AXI4_SLV0_SRCADDR_PARAM, ATR0_AXI4_SLV0_TRSL_ADDR_LSB, ATR1_AXI4_SLV0_TRSL_PARAM,
        ATR1_AXI4_SLV0_SRCADDR_PARAM, ATR1_AXI4_SLV0_TRSL_ADDR_LSB, Bool.and_eq_true,
        Bool.or_eq_true, beq_iff_eq, decide_eq_true_eq]
      omega
  · unfold reg_after
    rw [List.filter_append, List.filter_append, List.filter_append, hc, ha, hf, h3,
      List.nil_append, List.nil_append, List.append_nil, List.getLast?_map, Option.map_map]
    rfl

/-- Witness of the amended C15: a memory range, an I/O range and a second
memory range. -/
theorem init_port_memory_ranges_into_atr1_witness :
    reg_after (microsemi_pcie_init_port
      ⟨some "pci", 0, ⟨0x30000000, 0x3FFFFFFF⟩, 0xffffffd000000000, 0, 0xffffffd010000000, 0,
        some [⟨0x0, 0x40000000, 0x4000000, 0x200⟩, ⟨0x0, 0x60000000, 0x10000, 0x100⟩,
          ⟨0x10000000, 0x50000000, 0x4000000, 0x200⟩],
        fun _ => 0⟩).2 RegBlock.reg_bridge_apb ATR1_AXI4_SLV0_SRCADDR_PARAM =
      (([⟨0x0, 0x40000000, 0x4000000, 0x200⟩, ⟨0x0, 0x60000000, 0x10000, 0x100⟩,
          ⟨0x10000000, 0x50000000, 0x4000000, 0x200⟩].filter of_pci_range.is_mem).getLast?).map
        (fun r => atr_srcaddr_param r.cpu_addr (r.size % 2 ^ 64)) :=
  (init_port_memory_ranges_into_atr1
    ⟨some "pci", 0, ⟨0x30000000, 0x3FFFFFFF⟩, 0xffffffd000000000, 0, 0xffffffd010000000, 0,
      some [⟨0x0, 0x40000000, 0x4000000, 0x200⟩, ⟨0x0, 0x60000000, 0x10000, 0x100⟩,
        ⟨0x10000000, 0x50000000, 0x4000000, 0x200⟩],
      fun _ => 0⟩ _ (by decide) rfl).2.2.2

/-! ## Properties of the interrupt handler -/

theorem testBit_intx_status (v b : Nat) :
    ((v >>> 24) &&& 0x0f).testBit b = (v.testBit (24 + b) && decide (b < 4)) := by
  have h : (0x0f : Nat) = 2 ^ 4 - 1 := by decide
  rw [h, Nat.testBit_and, Nat.testBit_shiftRight, Nat.testBit_two_pow_sub_one]

theorem for_each_intx_bit (v : Nat) :
    for_each_set_bit ((v >>> 24) &&& 0x0f) PCI_NUM_INTX =
      (List.range 4).filter (fun b => v.testBit (24 + b)) := by
  rw [for_each_set_bit_eq_filter]
  apply List.filter_congr
  intro b hb
  have hb4 : b < 4 := List.mem_range.mp hb
  rw [testBit_intx_status]
  simp [hb4]

theorem and_two_pow_eq_iff (x n : Nat) : x &&& 2 ^ n = 2 ^ n ↔ x.testBit n = true := by
  constructor
  · intro h
    have h2 : (x &&& 2 ^ n).testBit n = true := by
      rw [h]
      exact Nat.testBit_two_pow_self
    rw [Nat.testBit_and] at h2
    simp only [Bool.and_eq_true] at h2
    exact h2.1
  · intro h
    apply Nat.eq_of_testBit_eq
    intro i
    rw [Nat.testBit_and, Nat.testBit_two_pow]
    by_cases hi : n = i
    · subst hi
      simp [h]
    · simp [hi]

theorem intx_body_eq (env : IntrEnv) (b : Nat) (hb : b < 4) :
    intx_body env b =
      [IrqEvent.writel (2 ^ (24 + b)) ISTATUS_LOCAL, handle_or_report env.leg_domain b] := by
  unfold intx_body
  have h : (1 <<< (b + 24)) % 2 ^ 32 = 2 ^ (24 + b) := by
    rw [Nat.one_shiftLeft, Nat.add_comm b 24]
    exact Nat.mod_eq_of_lt (Nat.pow_lt_pow_right (by decide) (by omega))
  rw [h]

theorem map_intx_body_eq (env : IntrEnv) (l : List Nat) (hl : ∀ b ∈ l, b < 4) :
    l.map (intx_body env) = l.map (fun b =>
      [IrqEvent.writel (2 ^ (24 + b)) ISTATUS_LOCAL, handle_or_report env.leg_domain b]) := by
  apply List.map_congr_left
  intro b hb
  exact intx_body_eq env b (hl b hb)

theorem intr_handler_intx_eq (env : IntrEnv) :
    intr_handler_intx env =
      IrqEvent.readl ISTATUS_LOCAL ::
        (((List.range 4).filter (fun b => env.istatus_local_first.testBit (24 + b))).map
          (fun b => [IrqEvent.writel (2 ^ (24 + b)) ISTATUS_LOCAL,
            handle_or_report env.leg_domain b])).flatten := by
  unfold intr_handler_intx
  simp only []
  rw [for_each_intx_bit, map_intx_body_eq]
  intro b hb
  exact List.mem_range.mp (List.mem_filter.mp hb).1

/-- C16: whatever the first read of `ISTATUS_LOCAL` returns,
`microsemi_pcie_intr_handler` handles exactly the lines `b` in 0..3 whose bit
`24 + b` is set, lowest first, and for each of them first writes the single
bit `1 << (24 + b)` to `ISTATUS_LOCAL` and then hands line `b` over (to
`generic_handle_irq` with the virq the legacy domain maps it to).  With lines 1
and 3 pending the clear writes are `0x02000000`, then `0x08000000`, line 1 is
handed over before line 3, and nothing is written for lines 0 and 2. -/
theorem intr_handler_intx_ascending (env : IntrEnv) :
    (microsemi_pcie_intr_handler env).2 =
      (IrqEvent.readl ISTATUS_LOCAL ::
        (((List.range 4).filter (fun b => env.istatus_local_first.testBit (24 + b))).map
          (fun b => [IrqEvent.writel (2 ^ (24 + b)) ISTATUS_LOCAL,
            handle_or_report env.leg_domain b])).flatten) ++ intr_handler_msi env ∧
    ((List.range 4).filter
      (fun b => env.istatus_local_first.testBit (24 + b))).Pairwise (fun a b => a < b) ∧
    (∀ b, env.leg_domain b ≠ 0 →
      handle_or_report env.leg_domain b = IrqEvent.generic_handle_irq (env.leg_domain b)) ∧
    (∀ (second msi : Nat) (leg msid : Nat → Nat),
      intr_handler_intx ⟨0x0A000000, second, msi, leg, msid⟩ =
        [IrqEvent.readl ISTATUS_LOCAL,
         IrqEvent.writel 0x02000000 ISTATUS_LOCAL, handle_or_report leg 1,
         IrqEvent.writel 0x08000000 ISTATUS_LOCAL, handle_or_report leg 3]) := by
  refine ⟨?_, ?_, ?_, ?_⟩
  · unfold microsemi_pcie_intr_handler
    rw [intr_handler_intx_eq]
  · exact List.Pairwise.filter _ (List.pairwise_lt_range 4)
  · intro b hb
    unfold handle_or_report
    simp only [if_pos hb]
  · intro second msi leg msid
    rw [intr_handler_intx_eq]
    have hf : (List.range 4).filter (fun b => (0x0A000000 : Nat).testBit (24 + b)) = [1, 3] := by
      decide
    simp only [hf]
    rfl

/-- The virqs dispatched by a block of events are those of its parts, in order. -/
theorem dispatched_append (l1 l2 : List IrqEvent) :
    dispatched (l1 ++ l2) = dispatched l1 ++ dispatched l2 := by
  induction l1 with
  | nil => rfl
  | cons e l1 ih =>
    cases e <;> simp [dispatched, ih]

theorem dispatched_readl (reg : Nat) (es : List IrqEvent) :
    dispatched (IrqEvent.readl reg :: es) = dispatched es := rfl

theorem dispatched_writel (val reg : Nat) (es : List IrqEvent) :
    dispatched (IrqEvent.writel val reg :: es) = dispatched es := rfl

theorem dispatched_bodies (domain : Nat → Nat) (val : Nat → Nat) (reg : Nat) (l : List Nat) :
    dispatched ((l.map (fun b =>
      [IrqEvent.writel (val b) reg, handle_or_report domain b])).flatten) =
      (l.filter (fun b => domain b != 0)).map domain := by
  induction l with
  | nil => rfl
  | cons b l ih =>
    rw [List.map_cons, List.flatten_cons, dispatched_append, ih, dispatched_writel,
      List.filter_cons]
    by_cases hb : domain b = 0
    · simp [dispatched, handle_or_report, hb]
    · simp [dispatched, handle_or_report, hb]

theorem intr_handler_msi_eq (env : IntrEnv) :
    intr_handler_msi env =
      IrqEvent.readl ISTATUS_LOCAL ::
        (if env.istatus_local_second.testBit 28 = true then
          IrqEvent.writel 0x10000000 ISTATUS_LOCAL :: IrqEvent.readl ISTATUS_MSI ::
            (((List.range 32).filter (fun v => env.istatus_msi.testBit v)).map
              (fun v => [IrqEvent.writel ((1 <<< v) % 2 ^ 32) ISTATUS_MSI,
                handle_or_report env.msi_domain v])).flatten
        else []) := by
  unfold intr_handler_msi
  simp only []
  have h28 : (0x10000000 : Nat) = 2 ^ 28 := by decide
  have hiff := and_two_pow_eq_iff env.istatus_local_second 28
  rw [← h28] at hiff
  by_cases hb : env.istatus_local_second.testBit 28 = true
  · rw [if_pos (hiff.mpr hb), if_pos hb, for_each_set_bit_eq_filter]
    rfl
  · rw [if_neg (fun h => hb (hiff.mp h)), if_neg hb]

/-- C17: the virqs `microsemi_pcie_intr_handler` dispatches are, in order, one
for each legacy line that was read as pending and is mapped, namely the virq
the legacy domain maps to that line, followed, when the MSI summary bit 28 was
read as set, by one for each MSI vector that was read as pending and is mapped,
namely the virq the MSI domain maps to that vector; nothing else is
dispatched. -/
theorem intr_handler_dispatches_pending (env : IntrEnv) :
    dispatched (microsemi_pcie_intr_handler env).2 =
      ((List.range 4).filter (fun b =>
        env.istatus_local_first.testBit (24 + b) && env.leg_domain b != 0)).map env.leg_domain ++
      (if env.istatus_local_second.testBit 28 = true then
        ((List.range 32).filter (fun v =>
          env.istatus_msi.testBit v && env.msi_domain v != 0)).map env.msi_domain
      else []) := by
  unfold microsemi_pcie_intr_handler
  rw [dispatched_append, intr_handler_intx_eq, intr_handler_msi_eq]
  have hleg : dispatched (IrqEvent.readl ISTATUS_LOCAL ::
      (((List.range 4).filter (fun b => env.istatus_local_first.testBit (24 + b))).map
        (fun b => [IrqEvent.writel (2 ^ (24 + b)) ISTATUS_LOCAL,
          handle_or_report env.leg_domain b])).flatten) =
      ((List.range 4).filter (fun b =>
        env.istatus_local_first.testBit (24 + b) && env.leg_domain b != 0)).map
          env.leg_domain := by
    rw [dispatched_readl, dispatched_bodies, List.filter_filter]
    congr 1
    apply List.filter_congr
    intro b _
    exact Bool.and_comm _ _
  rw [hleg]
  congr 1
  by_cases hb : env.istatus_local_second.testBit 28 = true
  · rw [if_pos hb, if_pos hb, dispatched_readl, dispatched_writel, dispatched_readl,
      dispatched_bodies, List.filter_filter]
    congr 1
    apply List.filter_congr
    intro b _
    exact Bool.and_comm _ _
  · rw [if_neg hb, if_neg hb]
    rfl

/-- C18: `microsemi_pcie_intr_handler` returns `IRQ_HANDLED` whatever the
registers hold and whatever the domains map, also when nothing is pending or
no pending source is mapped. -/
theorem intr_handler_returns_handled (env : IntrEnv) :
    (microsemi_pcie_intr_handler env).1 = IRQ_HANDLED ∧
    (microsemi_pcie_intr_handler
      ⟨0, 0, 0, env.leg_domain, env.msi_domain⟩).1 = IRQ_HANDLED ∧
    (microsemi_pcie_intr_handler
      ⟨env.istatus_local_first, env.istatus_local_second, env.istatus_msi,
        fun _ => 0, fun _ => 0⟩).1 = IRQ_HANDLED :=
  ⟨rfl, rfl, rfl⟩

/-! ## Properties of the MSI setup -/

theorem msi_setup_irq_of_lowest (irq_create_mapping : Nat → Nat) (bitmap id : Nat)
    (hid : id < MICROSEMI_NUM_MSI_IRQS) (hclear : bitmap.testBit id = false)
    (hbelow : ∀ j, j < id → bitmap.testBit j = true) :
    microsemi_pcie_msi_setup_irq irq_create_mapping bitmap =
      if irq_create_mapping id = 0 then
        (-EINVAL, set_bit id bitmap, [MsiSetupEvent.irq_create_mapping id])
      else
        (0, set_bit id bitmap,
          [MsiSetupEvent.irq_create_mapping id,
           MsiSetupEvent.irq_set_msi_desc (irq_create_mapping id),
           MsiSetupEvent.pci_write_msi_msg (irq_create_mapping id) ⟨MSI_MSG_ADDR, 0, id⟩]) := by
  have hassign := assign_msi_of_lowest bitmap id hid hclear hbelow
  have hnn : ¬ ((id : Nat) : Int) < 0 := by omega
  simp only [microsemi_pcie_msi_setup_irq, hassign, if_neg hnn, Int.toNat_ofNat]

/-- C19: whenever a vector is free and the irq core creates the mapping,
`microsemi_pcie_msi_setup_irq` returns 0, marks the lowest free id, an id in
0..31, as used, and its calls are `irq_create_mapping` for that id,
`irq_set_msi_desc`, and `pci_write_msi_msg` with a message that has
`address_hi = 0`, `address_lo = MSI_MSG_ADDR = 0x190` and `data` equal to that
id; it returns 0 in no other case; and when no vector is free it returns
`-ENOSPC`, leaves the bitmap as it was, creates no mapping and writes no
message. -/
theorem msi_setup_irq_message (irq_create_mapping : Nat → Nat) (bitmap : Nat) :
    (∀ id, id < MICROSEMI_NUM_MSI_IRQS → bitmap.testBit id = false →
      (∀ j, j < id → bitmap.testBit j = true) → irq_create_mapping id ≠ 0 →
      ∃ msg : msi_msg,
        microsemi_pcie_msi_setup_irq irq_create_mapping bitmap =
          (0, set_bit id bitmap,
            [MsiSetupEvent.irq_create_mapping id,
             MsiSetupEvent.irq_set_msi_desc (irq_create_mapping id),
             MsiSetupEvent.pci_write_msi_msg (irq_create_mapping id) msg]) ∧
        msg.address_hi = 0 ∧ msg.address_lo = MSI_MSG_ADDR ∧ MSI_MSG_ADDR = 0x190 ∧
        msg.data = id) ∧
    ((microsemi_pcie_msi_setup_irq irq_create_mapping bitmap).1 = 0 →
      ∃ id, id < MICROSEMI_NUM_MSI_IRQS ∧ bitmap.testBit id = false ∧
        (∀ j, j < id → bitmap.testBit j = true) ∧ irq_create_mapping id ≠ 0) ∧
    ((∀ i, i < MICROSEMI_NUM_MSI_IRQS → bitmap.testBit i = true) →
      microsemi_pcie_msi_setup_irq irq_create_mapping bitmap = (-ENOSPC, bitmap, [])) := by
  refine ⟨?_, ?_, ?_⟩
  · intro id hid hclear hbelow hirq
    refine ⟨⟨MSI_MSG_ADDR, 0, id⟩, ?_, rfl, rfl, rfl, rfl⟩
    rw [msi_setup_irq_of_lowest irq_create_mapping bitmap id hid hclear hbelow, if_neg hirq]
  · intro hret
    obtain ⟨_, h2, h3⟩ := find_first_zero_bit_spec bitmap MICROSEMI_NUM_MSI_IRQS
    by_cases hpos : find_first_zero_bit bitmap MICROSEMI_NUM_MSI_IRQS < MICROSEMI_NUM_MSI_IRQS
    · refine ⟨_, hpos, h3 hpos, h2, ?_⟩
      intro hirq
      rw [msi_setup_irq_of_lowest irq_create_mapping bitmap _ hpos (h3 hpos) h2,
        if_pos hirq] at hret
      have hne : (-EINVAL : Int) ≠ 0 := by decide
      exact hne hret
    · exfalso
      have hfull : ∀ i, i < MICROSEMI_NUM_MSI_IRQS → bitmap.testBit i = true :=
        fun i hi => h2 i (by omega)
      have hneg : -ENOSPC < 0 := by decide
      simp only [microsemi_pcie_msi_setup_irq, assign_msi_of_full bitmap hfull,
        if_pos hneg] at hret
      have hne : (-ENOSPC : Int) ≠ 0 := by decide
      exact hne hret
  · intro hfull
    have hneg : -ENOSPC < 0 := by decide
    simp only [microsemi_pcie_msi_setup_irq, assign_msi_of_full bitmap hfull, if_pos hneg]

/-- Witness of C19: vectors 0..2 in use and the irq core mapping hardware
number `h` to virq `h + 64`; the setup succeeds with vector 3, virq 67 and the
message (`address_lo` 0x190, `address_hi` 0, `data` 3). -/
theorem msi_setup_irq_message_witness :
    ∃ msg : msi_msg,
      microsemi_pcie_msi_setup_irq (fun h => h + 64) 0b0111 =
        (0, 0b1111,
          [MsiSetupEvent.irq_create_mapping 3,
           MsiSetupEvent.irq_set_msi_desc 67,
           MsiSetupEvent.pci_write_msi_msg 67 msg]) ∧
      msg.address_hi = 0 ∧ msg.address_lo = MSI_MSG_ADDR ∧ MSI_MSG_ADDR = 0x190 ∧
      msg.data = 3 :=
  (msi_setup_irq_message (fun h => h + 64) 0b0111).1 3 (by decide) (by decide)
    (by decide) (by decide)

/-! ## Properties of the SPI clock divisor -/

/-- C28: with an empty bitmap and an irq core that fails to create the mapping,
`microsemi_pcie_msi_setup_irq` returns `-EINVAL` and leaves bit 0 set: the
failed setup has consumed vector 0.  (With no free vector it returns `-ENOSPC`
and the bitmap is as before.) -/
theorem msi_setup_irq_leaks_vector :
    microsemi_pcie_msi_setup_irq (fun _ => 0) 0 =
      (-EINVAL, 1, [MsiSetupEvent.irq_create_mapping 0]) ∧
    (microsemi_pcie_msi_setup_irq (fun _ => 0) 0).1 < 0 ∧
    (microsemi_pcie_msi_setup_irq (fun _ => 0) 0).2.1 ≠ 0 ∧
    microsemi_pcie_msi_setup_irq (fun _ => 0) 0xFFFFFFFF = (-ENOSPC, 0xFFFFFFFF, []) := by
  decide

/-- C29: for a 32-bit in-use bitmap with a clear bit, `microsemi_pcie_assign_msi`
changes no bit other than the one it returns, `microsemi_pcie_destroy_msi` on
that id changes no bit other than that one, and the two calls in a row give the
original bitmap back. -/
theorem assign_then_destroy_restores (irqd_to_hwirq : Nat → Nat) (irq bitmap : Nat)
    (hbitmap : bitmap < 2 ^ MICROSEMI_NUM_MSI_IRQS)
    (hfree : ∃ i, i < MICROSEMI_NUM_MSI_IRQS ∧ bitmap.testBit i = false)
    (hirq : ((irqd_to_hwirq irq : Nat) : Int) = (microsemi_pcie_assign_msi bitmap).1) :
    (∀ j, j ≠ irqd_to_hwirq irq →
      (microsemi_pcie_assign_msi bitmap).2.testBit j = bitmap.testBit j) ∧
    (∀ j, j ≠ irqd_to_hwirq irq →
      (microsemi_pcie_destroy_msi irqd_to_hwirq irq
        (microsemi_pcie_assign_msi bitmap).2).1.testBit j =
        (microsemi_pcie_assign_msi bitmap).2.testBit j) ∧
    microsemi_pcie_destroy_msi irqd_to_hwirq irq (microsemi_pcie_assign_msi bitmap).2 =
      (bitmap, []) := by
  obtain ⟨i, hi, hclear⟩ := hfree
  obtain ⟨_, h2, h3⟩ := find_first_zero_bit_spec bitmap MICROSEMI_NUM_MSI_IRQS
  have hlt := find_first_zero_bit_lt bitmap _ i hi hclear
  have hassign := assign_msi_of_lowest bitmap _ hlt (h3 hlt) h2
  rw [hassign] at hirq ⊢
  have hid : irqd_to_hwirq irq = find_first_zero_bit bitmap MICROSEMI_NUM_MSI_IRQS :=
    Int.ofNat.inj hirq
  rw [← hid] at hlt h3 ⊢
  have hword : set_bit (irqd_to_hwirq irq) bitmap < 2 ^ BITS_PER_LONG :=
    Nat.lt_of_lt_of_le (set_bit_lt _ _ _ hlt hbitmap)
      (Nat.pow_le_pow_right (by decide) (by decide))
  have hset : (set_bit (irqd_to_hwirq irq) bitmap).testBit (irqd_to_hwirq irq) = true := by
    rw [testBit_set_bit]
    simp
  rw [destroy_msi_of_set _ _ _ hset]
  refine ⟨?_, ?_, ?_⟩
  · intro j hj
    show (set_bit (irqd_to_hwirq irq) bitmap).testBit j = _
    rw [testBit_set_bit]
    have hne : ¬ irqd_to_hwirq irq = j := fun h => hj h.symm
    simp [hne]
  · intro j hj
    show (clear_bit (irqd_to_hwirq irq) (set_bit (irqd_to_hwirq irq) bitmap)).testBit j = _
    rw [testBit_clear_bit _ _ _ hword]
    have hne : ¬ irqd_to_hwirq irq = j := fun h => hj h.symm
    simp [hne]
  · congr 1
    apply Nat.eq_of_testBit_eq
    intro j
    rw [testBit_clear_bit _ _ _ hword, testBit_set_bit]
    by_cases hj : irqd_to_hwirq irq = j
    · subst hj
      simp [h3 hlt]
    · simp [hj]

/-- Witness of C29: the bitmap `0b1011`, whose vector 2 is handed out and
freed again. -/
theorem assign_then_destroy_restores_witness :
    microsemi_pcie_destroy_msi (fun irq => irq - 100) 102
      (microsemi_pcie_assign_msi 0b1011).2 = (0b1011, []) :=
  (assign_then_destroy_restores (fun irq => irq - 100) 102 0b1011 (by decide)
    ⟨2, by decide, by decide⟩ (by decide)).2.2

/-! ## Further properties of the ECAM address computation -/

/-- C30: for one port, two accesses with bus and devfn in 0..255 and offset in
0..4095 that `microsemi_pcie_map_bus` both accepts and maps to the same address
are the same access; and every address returned for such an access lies in
`[reg_base, reg_base + 2^28)`. -/
theorem map_bus_injective (port : microsemi_pcie_port)
    (bus1 devfn1 offset1 bus2 devfn2 offset2 : Nat)
    (hb1 : bus1 < 256) (hd1 : devfn1 < 256) (ho1 : offset1 < 4096)
    (hb2 : bus2 < 256) (hd2 : devfn2 < 256) (ho2 : offset2 < 4096)
    (hv1 : microsemi_pcie_valid_device ⟨bus1, port⟩ devfn1 = true)
    (hv2 : microsemi_pcie_valid_device ⟨bus2, port⟩ devfn2 = true) :
    (microsemi_pcie_map_bus ⟨bus1, port⟩ devfn1 (offset1 : Int) =
        microsemi_pcie_map_bus ⟨bus2, port⟩ devfn2 (offset2 : Int) →
      bus1 = bus2 ∧ devfn1 = devfn2 ∧ offset1 = offset2) ∧
    ∃ a : Int, microsemi_pcie_map_bus ⟨bus1, port⟩ devfn1 (offset1 : Int) = some a ∧
      (port.reg_base : Int) ≤ a ∧ a < (port.reg_base : Int) + 2 ^ 28 := by
  have hr1 := (relbus_in_range ⟨bus1, port⟩ devfn1 hb1 hd1).1
  have hr2 := (relbus_in_range ⟨bus2, port⟩ devfn2 hb2 hd2).1
  have hm1 : microsemi_pcie_map_bus ⟨bus1, port⟩ devfn1 (offset1 : Int) =
      some ((port.reg_base : Int) + ((bus1 * 2 ^ 20 + devfn1 * 2 ^ 12 : Nat) : Int) +
        (offset1 : Int)) := by
    unfold microsemi_pcie_map_bus
    simp [hv1, hr1]
  have hm2 : microsemi_pcie_map_bus ⟨bus2, port⟩ devfn2 (offset2 : Int) =
      some ((port.reg_base : Int) + ((bus2 * 2 ^ 20 + devfn2 * 2 ^ 12 : Nat) : Int) +
        (offset2 : Int)) := by
    unfold microsemi_pcie_map_bus
    simp [hv2, hr2]
  constructor
  · intro heq
    rw [hm1, hm2] at heq
    have h := Option.some.inj heq
    omega
  · refine ⟨_, hm1, ?_, ?_⟩
    · omega
    · omega

/-- Witness of C30: two accesses behind root bus 0 with the link up. -/
theorem map_bus_injective_witness :
    ∃ a : Int, microsemi_pcie_map_bus ⟨1, ⟨0x30000000, fun _ => LTSSM_L0_STATE, 0⟩⟩ 0
        ((0x10 : Nat) : Int) = some a ∧
      ((0x30000000 : Nat) : Int) ≤ a ∧ a < ((0x30000000 : Nat) : Int) + 2 ^ 28 :=
  (map_bus_injective ⟨0x30000000, fun _ => LTSSM_L0_STATE, 0⟩ 1 0 0x10 2 8 0x20
    (by decide) (by decide) (by decide) (by decide) (by decide) (by decide)
    (by decide) (by decide)).2

/-! ## Order of the initialisation writes and the size exponent -/

theorem atr1_writes_not_imask (r : of_pci_range) :
    ∀ w ∈ atr1_writes r, w.to_imask_local = false := by
  intro w hw
  cases hmem : r.is_mem
  · rw [atr1_writes_of_not_mem r hmem] at hw
    cases hw
  · rw [atr1_writes_of_mem r hmem] at hw
    simp only [List.mem_cons, List.mem_singleton, List.mem_nil_iff, or_false] at hw
    rcases hw with h | h | h <;> subst h <;> rfl

theorem flatten_atr1_writes_not_imask (rs : List of_pci_range) :
    ∀ w ∈ (rs.map atr1_writes).flatten, w.to_imask_local = false := by
  intro w hw
  obtain ⟨l, hl, hwl⟩ := List.mem_flatten.mp hw
  obtain ⟨r, _, hr⟩ := List.mem_map.mp hl
  subst hr
  exact atr1_writes_not_imask r w hwl

/-- C24: in the writes of a successful `microsemi_pcie_init_port`,
`IMASK_LOCAL` is written with 0 before any translation-table register is
written; it is not written again until the last write of the sequence; and
that last write is the unmask `PCIE_ENABLE_MSI | PCIE_LOCAL_INT_ENABLE`: every
translation-table write lies between the two. -/
theorem init_port_masked_until_programmed (env : InitEnv) (rs : List of_pci_range)
    (hok : env.probes_ok = true) (hranges : env.ranges = some rs) :
    (microsemi_pcie_init_port env).1 = 0 ∧
    ∃ pre mid : List RegWrite,
      (microsemi_pcie_init_port env).2 =
        pre ++ ⟨RegBlock.reg_bridge_apb, IMASK_LOCAL, 0⟩ :: mid ++
          [⟨RegBlock.reg_bridge_apb, IMASK_LOCAL, PCIE_ENABLE_MSI ||| PCIE_LOCAL_INT_ENABLE⟩] ∧
      (∀ w ∈ pre, w.to_imask_local = false ∧ w.to_translation_table = false) ∧
      (∀ w ∈ mid, w.to_imask_local = false) ∧
      (∀ w ∈ atr0_writes env.regs, w ∈ mid) ∧
      (∀ r ∈ rs, ∀ w ∈ atr1_writes r, w ∈ mid) ∧
      (∀ w ∈ (microsemi_pcie_init_port env).2, w.to_translation_table = true → w ∈ mid) := by
  rw [init_port_of_probes_ok env rs hok hranges]
  refine ⟨rfl, clear_and_disable_writes.take 6,
    clear_and_disable_writes.drop 7 ++ atr0_writes env.regs ++
      (rs.map atr1_writes).flatten ++ (final_writes env).take 4, ?_, ?_, ?_, ?_, ?_, ?_⟩
  · simp [clear_and_disable_writes, final_writes]
  · intro w hw
    simp only [clear_and_disable_writes, List.take, List.mem_cons, List.mem_nil_iff,
      or_false] at hw
    rcases hw with h | h | h | h | h | h <;> subst h <;> exact ⟨rfl, rfl⟩
  · intro w hw
    simp only [List.mem_append] at hw
    rcases hw with ((h | h) | h) | h
    · simp only [clear_and_disable_writes, List.drop, List.mem_cons, List.mem_nil_iff,
        or_false] at h
      rcases h with h | h | h <;> subst h <;> rfl
    · simp only [atr0_writes, List.mem_cons, List.mem_nil_iff, or_false] at h
      rcases h with h | h | h <;> subst h <;> rfl
    · exact flatten_atr1_writes_not_imask rs w h
    · simp only [final_writes, List.take, List.mem_cons, List.mem_nil_iff, or_false] at h
      rcases h with h | h | h | h <;> subst h <;> rfl
  · intro w hw
    exact List.mem_append_left _ (List.mem_append_left _ (List.mem_append_right _ hw))
  · intro r hr w hw
    exact List.mem_append_left _ (List.mem_append_right _
      (List.mem_flatten.mpr ⟨_, List.mem_map_of_mem _ hr, hw⟩))
  · intro w hw htr
    simp only [List.mem_append] at hw
    rcases hw with ((h | h) | h) | h
    · simp only [clear_and_disable_writes, List.mem_cons, List.mem_nil_iff, or_false] at h
      rcases h with h | h | h | h | h | h | h | h | h | h <;> subst h <;>
        exact absurd htr (by decide)
    · exact List.mem_append_left _ (List.mem_append_left _ (List.mem_append_right _ h))
    · exact List.mem_append_left _ (List.mem_append_right _ h)
    · simp only [final_writes, List.mem_cons, List.mem_nil_iff, or_false] at h
      rcases h with h | h | h | h | h
      all_goals first
        | (subst h; exact absurd htr (by decide))
        | (subst h; simp [final_writes])

/-- Witness of C24: the end-to-end scenario with one memory range. -/
theorem init_port_masked_until_programmed_witness :
    (microsemi_pcie_init_port
      ⟨some "pci", 0, ⟨0x30000000, 0x3FFFFFFF⟩, 0xffffffd000000000, 0, 0xffffffd010000000, 0,
        some [⟨0x0, 0x40000000, 0x4000000, 0x200⟩], fun _ => 0⟩).1 = 0 :=
  (init_port_masked_until_programmed
    ⟨some "pci", 0, ⟨0x30000000, 0x3FFFFFFF⟩, 0xffffffd000000000, 0, 0xffffffd010000000, 0,
      some [⟨0x0, 0x40000000, 0x4000000, 0x200⟩], fun _ => 0⟩
    [⟨0x0, 0x40000000, 0x4000000, 0x200⟩] (by decide) rfl).1

theorem eq_two_pow_of_lowest_of_lt (size t : Nat) (hset : size.testBit t = true)
    (hbelow : ∀ j, j < t → size.testBit j = false) (hlt : size < 2 ^ (t + 1)) :
    size = 2 ^ t := by
  apply Nat.eq_of_testBit_eq
  intro j
  rw [Nat.testBit_two_pow]
  rcases Nat.lt_trichotomy j t with h | h | h
  · rw [hbelow j h]
    have hne : ¬ t = j := by omega
    simp [hne]
  · subst h
    simp [hset]
  · have hle : 2 ^ (t + 1) ≤ 2 ^ j := Nat.pow_le_pow_right (by decide) (by omega)
    rw [Nat.testBit_lt_two_pow (Nat.lt_of_lt_of_le hlt hle)]
    have hne : ¬ t = j := by omega
    simp [hne]

/-- C26: for a nonzero 64-bit window size, the exponent that
`microsemi_pcie_init_port` encodes is the index `t` of the lowest set bit of
the size, minus one (in `u32` arithmetic), whatever the higher bits are; it is
`floor(log2(size)) - 1` exactly when the size is a power of two; and two sizes
with the same lowest set bit, such as `0x1000` and `0x3000`, give the same
exponent and the same source-parameter value. -/
theorem atr_size_bit_lowest_set_bit (size : Nat) (hs0 : 0 < size) (hs : size < 2 ^ 64) :
    ∃ t, t < 64 ∧ size.testBit t = true ∧ (∀ j, j < t → size.testBit j = false) ∧
      atr_size_bit size = (t + 2 ^ 32 - 1) % 2 ^ 32 ∧
      (1 ≤ t → atr_size_bit size = t - 1) ∧
      (atr_size_bit size = (Nat.log2 size + 2 ^ 32 - 1) % 2 ^ 32 ↔ ∃ k, size = 2 ^ k) ∧
      (∀ size2, size2.testBit t = true → (∀ j, j < t → size2.testBit j = false) →
        atr_size_bit size2 = atr_size_bit size ∧
        ∀ base, atr_srcaddr_param base size2 = atr_srcaddr_param base size) ∧
      atr_size_bit 0x1000 = atr_size_bit 0x3000 ∧ atr_size_bit 0x3000 = 11 := by
  obtain ⟨_, _, h3, h4⟩ := find_next_bit_spec size 64 0 (Nat.zero_le _)
  have hlt := find_first_bit_lt_of_pos size hs0 hs
  have hset : size.testBit (find_first_bit size 64) = true := h4 hlt
  have hclear : ∀ j, j < find_first_bit size 64 → size.testBit j = false :=
    fun j hj => h3 j (Nat.zero_le _) hj
  have hbit : atr_size_bit size = (find_first_bit size 64 + 2 ^ 32 - 1) % 2 ^ 32 := by
    unfold atr_size_bit
    omega
  have hlog : Nat.log2 size < 64 := (Nat.log2_lt (by omega)).mpr hs
  refine ⟨find_first_bit size 64, hlt, hset, hclear, hbit, ?_, ?_, ?_, by decide, by decide⟩
  · intro h1
    rw [hbit]
    omega
  · rw [hbit]
    constructor
    · intro h
      have ht : find_first_bit size 64 = Nat.log2 size := by omega
      have hup : size < 2 ^ (find_first_bit size 64 + 1) := by
        rw [ht]
        exact Nat.lt_log2_self
      exact ⟨find_first_bit size 64, eq_two_pow_of_lowest_of_lt size _ hset hclear hup⟩
    · rintro ⟨k, hk⟩
      have h : (2 ^ k).testBit (find_first_bit size 64) = true := by
        rw [← hk]
        exact hset
      rw [Nat.testBit_two_pow] at h
      have hkt : k = find_first_bit size 64 := by simpa using h
      have hl : Nat.log2 size = k := by
        rw [hk]
        exact Nat.log2_two_pow
      rw [hl, hkt]
  · intro size2 hset2 hclear2
    have hff : find_first_bit size2 64 = find_first_bit size 64 :=
      find_first_bit_eq size2 64 _ hlt hset2 hclear2
    have hb : atr_size_bit size2 = atr_size_bit size := by
      unfold atr_size_bit
      rw [hff]
    refine ⟨hb, ?_⟩
    intro base
    unfold atr_srcaddr_param
    rw [hb]

/-- Witness of C26 at the size `0x3000`. -/
theorem atr_size_bit_lowest_set_bit_witness :
    ∃ t, t < 64 ∧ (0x3000 : Nat).testBit t = true ∧
      atr_size_bit 0x3000 = (t + 2 ^ 32 - 1) % 2 ^ 32 :=
  (atr_size_bit_lowest_set_bit 0x3000 (by decide) (by decide)).elim
    (fun t h => ⟨t, h.1, h.2.1, h.2.2.2.1⟩)

/-! ## Further properties of the interrupt handler -/

theorem one_shiftLeft_mod (v : Nat) (hv : v < 32) : (1 <<< v) % 2 ^ 32 = 2 ^ v := by
  rw [Nat.one_shiftLeft]
  exact Nat.mod_eq_of_lt (Nat.pow_lt_pow_right (by decide) hv)

/-- The MSI part of the handler, with the single-bit values written out. -/
theorem intr_handler_msi_eq_pow (env : IntrEnv) :
    intr_handler_msi env =
      IrqEvent.readl ISTATUS_LOCAL ::
        (if env.istatus_local_second.testBit 28 = true then
          IrqEvent.writel (2 ^ 28) ISTATUS_LOCAL :: IrqEvent.readl ISTATUS_MSI ::
            (((List.range 32).filter (fun v => env.istatus_msi.testBit v)).map
              (fun v => [IrqEvent.writel (2 ^ v) ISTATUS_MSI,
                handle_or_report env.msi_domain v])).flatten
        else []) := by
  rw [intr_handler_msi_eq]
  have hmap : ((List.range 32).filter (fun v => env.istatus_msi.testBit v)).map
      (fun v => [IrqEvent.writel ((1 <<< v) % 2 ^ 32) ISTATUS_MSI,
        handle_or_report env.msi_domain v]) =
      ((List.range 32).filter (fun v => env.istatus_msi.testBit v)).map
      (fun v => [IrqEvent.writel (2 ^ v) ISTATUS_MSI,
        handle_or_report env.msi_domain v]) := by
    apply List.map_congr_left
    intro v hv
    rw [one_shiftLeft_mod v (List.mem_range.mp (List.mem_filter.mp hv).1)]
  rw [hmap]
  rfl

theorem mem_bodies (domain : Nat → Nat) (val : Nat → Nat) (reg : Nat) (l : List Nat)
    (e : IrqEvent) :
    e ∈ (l.map (fun b => [IrqEvent.writel (val b) reg, handle_or_report domain b])).flatten ↔
      ∃ b, b ∈ l ∧ (e = IrqEvent.writel (val b) reg ∨ e = handle_or_report domain b) := by
  simp only [List.mem_flatten, List.mem_map]
  constructor
  · rintro ⟨body, ⟨b, hb, rfl⟩, he⟩
    simp only [List.mem_cons, List.mem_singleton, List.mem_nil_iff, or_false] at he
    exact ⟨b, hb, he⟩
  · rintro ⟨b, hb, he⟩
    refine ⟨_, ⟨b, hb, rfl⟩, ?_⟩
    simp only [List.mem_cons, List.mem_singleton, List.mem_nil_iff, or_false]
    exact he

theorem handle_or_report_cases (domain : Nat → Nat) (b : Nat) :
    (domain b ≠ 0 ∧ handle_or_report domain b = IrqEvent.generic_handle_irq (domain b)) ∨
    (domain b = 0 ∧ handle_or_report domain b = IrqEvent.unexpected_irq b) := by
  unfold handle_or_report
  by_cases h : domain b = 0
  · right
    simp [h]
  · left
    simp [h]

theorem handle_or_report_access (domain : Nat → Nat) (b : Nat) :
    (handle_or_report domain b).access = none := by
  rcases handle_or_report_cases domain b with ⟨_, h⟩ | ⟨_, h⟩ <;> rw [h] <;> rfl

theorem readl_not_mem_bodies (domain : Nat → Nat) (val : Nat → Nat) (reg r : Nat)
    (l : List Nat) :
    IrqEvent.readl r ∉
      (l.map (fun b => [IrqEvent.writel (val b) reg, handle_or_report domain b])).flatten := by
  intro h
  obtain ⟨b, _, hb | hb⟩ := (mem_bodies domain val reg l _).mp h
  · cases hb
  · rcases handle_or_report_cases domain b with ⟨_, h2⟩ | ⟨_, h2⟩ <;> rw [h2] at hb <;> cases hb

theorem writel_mem_bodies (domain : Nat → Nat) (val : Nat → Nat) (reg reg2 v : Nat)
    (l : List Nat) :
    IrqEvent.writel v reg2 ∈
      (l.map (fun b => [IrqEvent.writel (val b) reg, handle_or_report domain b])).flatten ↔
      reg2 = reg ∧ ∃ b, b ∈ l ∧ v = val b := by
  rw [mem_bodies]
  constructor
  · rintro ⟨b, hb, h | h⟩
    · cases h
      exact ⟨rfl, b, hb, rfl⟩
    · rcases handle_or_report_cases domain b with ⟨_, h2⟩ | ⟨_, h2⟩ <;> rw [h2] at h <;> cases h
  · rintro ⟨rfl, b, hb, rfl⟩
    exact ⟨b, hb, Or.inl rfl⟩

theorem mem_intr_handler_intx (env : IntrEnv) (e : IrqEvent)
    (he : e ∈ intr_handler_intx env) :
    e ≠ IrqEvent.readl ISTATUS_MSI ∧ ∀ val, e ≠ IrqEvent.writel val ISTATUS_MSI := by
  rw [intr_handler_intx_eq, List.mem_cons] at he
  rcases he with h | h
  · subst h
    exact ⟨by decide, fun val => by simp⟩
  · constructor
    · intro hc
      subst hc
      exact readl_not_mem_bodies _ _ _ _ _ h
    · intro val hc
      subst hc
      have := ((writel_mem_bodies _ _ _ _ _ _).mp h).1
      exact absurd this (by decide)

/-- C21: the MSI part of `microsemi_pcie_intr_handler` is decided by the second
read of `ISTATUS_LOCAL` alone.  When bit 28 of that value is set the handler
writes `1 << 28` to `ISTATUS_LOCAL`, reads `ISTATUS_MSI` once, and for each set
bit `v` of that value, lowest first, writes `1 << v` to `ISTATUS_MSI` and then
hands vector `v` over; when bit 28 is clear it neither reads nor writes
`ISTATUS_MSI` and dispatches nothing in the MSI part. -/
theorem intr_handler_msi_phase (env : IntrEnv) :
    (microsemi_pcie_intr_handler env).2 = intr_handler_intx env ++
      (IrqEvent.readl ISTATUS_LOCAL ::
        (if env.istatus_local_second.testBit 28 = true then
          IrqEvent.writel (2 ^ 28) ISTATUS_LOCAL :: IrqEvent.readl ISTATUS_MSI ::
            (((List.range 32).filter (fun v => env.istatus_msi.testBit v)).map
              (fun v => [IrqEvent.writel (2 ^ v) ISTATUS_MSI,
                handle_or_report env.msi_domain v])).flatten
        else [])) ∧
    (∀ (first : Nat) (leg : Nat → Nat),
      intr_handler_msi
          ⟨first, env.istatus_local_second, env.istatus_msi, leg, env.msi_domain⟩ =
        intr_handler_msi env) ∧
    (∀ (second msi : Nat) (msid : Nat → Nat),
      intr_handler_intx ⟨env.istatus_local_first, second, msi, env.leg_domain, msid⟩ =
        intr_handler_intx env) ∧
    ((List.range 32).filter
      (fun v => env.istatus_msi.testBit v)).Pairwise (fun a b => a < b) ∧
    (∀ v, env.msi_domain v ≠ 0 →
      handle_or_report env.msi_domain v = IrqEvent.generic_handle_irq (env.msi_domain v)) ∧
    List.count (IrqEvent.readl ISTATUS_MSI) (microsemi_pcie_intr_handler env).2 =
      (if env.istatus_local_second.testBit 28 = true then 1 else 0) ∧
    (env.istatus_local_second.testBit 28 = false →
      (∀ e ∈ (microsemi_pcie_intr_handler env).2,
        e ≠ IrqEvent.readl ISTATUS_MSI ∧ ∀ val, e ≠ IrqEvent.writel val ISTATUS_MSI) ∧
      dispatched (intr_handler_msi env) = []) := by
  have htrace : (microsemi_pcie_intr_handler env).2 =
      intr_handler_intx env ++ intr_handler_msi env := rfl
  have hcount0 : List.count (IrqEvent.readl ISTATUS_MSI) (intr_handler_intx env) = 0 :=
    List.count_eq_zero_of_not_mem (fun h => (mem_intr_handler_intx env _ h).1 rfl)
  refine ⟨?_, fun _ _ => rfl, fun _ _ _ => rfl,
    List.Pairwise.filter _ (List.pairwise_lt_range 32), ?_, ?_, ?_⟩
  · rw [htrace, intr_handler_msi_eq_pow]
  · intro v hv
    unfold handle_or_report
    simp only [if_pos hv]
  · rw [htrace, List.count_append, hcount0, intr_handler_msi_eq_pow, Nat.zero_add]
    by_cases hb : env.istatus_local_second.testBit 28 = true
    · rw [if_pos hb, if_pos hb, List.count_cons, List.count_cons, List.count_cons,
        List.count_eq_zero_of_not_mem (readl_not_mem_bodies _ _ _ _ _)]
      decide
    · rw [if_neg hb, if_neg hb, List.count_cons, List.count_nil]
      decide
  · intro hb
    have hnb : ¬ env.istatus_local_second.testBit 28 = true := by simp [hb]
    have hmsi : intr_handler_msi env = [IrqEvent.readl ISTATUS_LOCAL] := by
      rw [intr_handler_msi_eq_pow, if_neg hnb]
    constructor
    · intro e he
      rw [htrace, List.mem_append] at he
      rcases he with h | h
      · exact mem_intr_handler_intx env e h
      · rw [hmsi, List.mem_singleton] at h
        subst h
        exact ⟨by decide, fun val => by simp⟩
    · rw [hmsi]
      rfl

theorem observed_single_bit_pow (r b : Nat) (hb : b < 32) (hset : r.testBit b = true) :
    observed_single_bit (some r) (2 ^ b) = true := by
  unfold observed_single_bit
  simp only [List.any_eq_true, List.mem_range, Bool.and_eq_true, beq_iff_eq]
  exact ⟨b, hb, rfl, hset⟩

theorem writes_observed_handle (env : IntrEnv) (domain : Nat → Nat) (b : Nat)
    (es : List IrqEvent) (n : Nat) (ll lm : Option Nat) :
    writes_observed env (handle_or_report domain b :: es) n ll lm =
      writes_observed env es n ll lm := by
  rcases handle_or_report_cases domain b with ⟨_, h⟩ | ⟨_, h⟩ <;> rw [h] <;> rfl

theorem writes_observed_readl_local (env : IntrEnv) (es : List IrqEvent) (n : Nat)
    (ll lm : Option Nat) :
    writes_observed env (IrqEvent.readl ISTATUS_LOCAL :: es) n ll lm =
      writes_observed env es (n + 1)
        (some (if n = 0 then env.istatus_local_first else env.istatus_local_second)) lm := by
  rw [writes_observed, if_pos rfl]

theorem writes_observed_readl_msi (env : IntrEnv) (es : List IrqEvent) (n : Nat)
    (ll lm : Option Nat) :
    writes_observed env (IrqEvent.readl ISTATUS_MSI :: es) n ll lm =
      writes_observed env es n ll (some env.istatus_msi) := by
  have hne : ¬ ISTATUS_MSI = ISTATUS_LOCAL := by decide
  rw [writes_observed, if_neg hne, if_pos rfl]

theorem writes_observed_writel_local (env : IntrEnv) (val : Nat) (es : List IrqEvent)
    (n : Nat) (ll lm : Option Nat) :
    writes_observed env (IrqEvent.writel val ISTATUS_LOCAL :: es) n ll lm =
      (observed_single_bit ll val && writes_observed env es n ll lm) := by
  rw [writes_observed, if_pos rfl]

theorem writes_observed_writel_msi (env : IntrEnv) (val : Nat) (es : List IrqEvent)
    (n : Nat) (ll lm : Option Nat) :
    writes_observed env (IrqEvent.writel val ISTATUS_MSI :: es) n ll lm =
      (observed_single_bit lm val && writes_observed env es n ll lm) := by
  have hne : ¬ ISTATUS_MSI = ISTATUS_LOCAL := by decide
  rw [writes_observed, if_neg hne, if_pos rfl]

theorem writes_observed_local_bodies (env : IntrEnv) (domain : Nat → Nat) (r : Nat)
    (rest : List IrqEvent) (n : Nat) (lm : Option Nat) :
    ∀ l : List Nat, (∀ b ∈ l, 24 + b < 32 ∧ r.testBit (24 + b) = true) →
      writes_observed env
        ((l.map (fun b => [IrqEvent.writel (2 ^ (24 + b)) ISTATUS_LOCAL,
          handle_or_report domain b])).flatten ++ rest) n (some r) lm =
        writes_observed env rest n (some r) lm := by
  intro l
  induction l with
  | nil =>
    intro _
    rfl
  | cons b l ih =>
    intro hl
    have hb := hl b (List.mem_cons_self _ _)
    have hrest := ih (fun c hc => hl c (List.mem_cons_of_mem _ hc))
    simp only [List.map_cons, List.flatten_cons, List.cons_append, List.nil_append,
      List.append_assoc]
    rw [writes_observed_writel_local, observed_single_bit_pow r _ hb.1 hb.2, Bool.true_and,
      writes_observed_handle, hrest]

theorem writes_observed_msi_bodies (env : IntrEnv) (domain : Nat → Nat) (r : Nat)
    (rest : List IrqEvent) (n : Nat) (ll : Option Nat) :
    ∀ l : List Nat, (∀ v ∈ l, v < 32 ∧ r.testBit v = true) →
      writes_observed env
        ((l.map (fun v => [IrqEvent.writel (2 ^ v) ISTATUS_MSI,
          handle_or_report domain v])).flatten ++ rest) n ll (some r) =
        writes_observed env rest n ll (some r) := by
  intro l
  induction l with
  | nil =>
    intro _
    rfl
  | cons v l ih =>
    intro hl
    have hv := hl v (List.mem_cons_self _ _)
    have hrest := ih (fun c hc => hl c (List.mem_cons_of_mem _ hc))
    simp only [List.map_cons, List.flatten_cons, List.cons_append, List.nil_append,
      List.append_assoc]
    rw [writes_observed_writel_msi, observed_single_bit_pow r _ hv.1 hv.2, Bool.true_and,
      writes_observed_handle, hrest]

theorem clear_writes_bodies (domain : Nat → Nat) (val : Nat → Nat) (reg : Nat)
    (hreg : (reg == ISTATUS_LOCAL || reg == ISTATUS_MSI) = true) (l : List Nat) :
    (((l.map (fun b => [IrqEvent.writel (val b) reg,
      handle_or_report domain b])).flatten).filter IrqEvent.is_clear_write).length =
      l.length := by
  induction l with
  | nil => rfl
  | cons b l ih =>
    rw [List.map_cons, List.flatten_cons, List.filter_append, List.length_append, ih]
    have hw : IrqEvent.is_clear_write (IrqEvent.writel (val b) reg) = true := hreg
    have hh : IrqEvent.is_clear_write (handle_or_report domain b) = false := by
      rcases handle_or_report_cases domain b with ⟨_, h⟩ | ⟨_, h⟩ <;> rw [h] <;> rfl
    rw [List.filter_cons, if_pos hw, List.filter_cons, hh]
    simp only [Bool.false_eq_true, if_false, List.filter_nil, List.length_cons,
      List.length_nil]
    omega

theorem filter_clear_readl (reg : Nat) (es : List IrqEvent) :
    (IrqEvent.readl reg :: es).filter IrqEvent.is_clear_write =
      es.filter IrqEvent.is_clear_write := rfl

theorem filter_clear_writel_local (val : Nat) (es : List IrqEvent) :
    (IrqEvent.writel val ISTATUS_LOCAL :: es).filter IrqEvent.is_clear_write =
      IrqEvent.writel val ISTATUS_LOCAL :: es.filter IrqEvent.is_clear_write := rfl

theorem popcount_intx_field (v : Nat) :
    popcount ((v >>> 24) &&& 0x0f) =
      ((List.range 4).filter (fun b => v.testBit (24 + b))).length := by
  unfold popcount
  have happ := List.range'_append_1 0 4 28
  have h32 : List.range 32 = List.range' 0 4 ++ List.range' 4 28 := by
    rw [List.range_eq_range']
    exact happ.symm
  rw [h32, List.filter_append,
    filter_range'_clear ((v >>> 24) &&& 0x0f) 4 28 (by
      intro j hj1 _
      rw [testBit_intx_status]
      have : ¬ j < 4 := by omega
      simp [this]),
    List.append_nil, ← List.range_eq_range']
  congr 1
  apply List.filter_congr
  intro b hb
  rw [testBit_intx_status]
  simp [List.mem_range.mp hb]

/-- C22: every value `microsemi_pcie_intr_handler` writes to `ISTATUS_LOCAL` or
to `ISTATUS_MSI` has exactly one bit set, a bit that was set in the value most
recently read from the same register during the run; and the number of these
writes is the number of set bits of the legacy field of the first read, plus,
when bit 28 of the second read is set, one plus the number of set bits of the
`ISTATUS_MSI` value. -/
theorem intr_handler_clears_only_observed (env : IntrEnv) :
    writes_observed env (microsemi_pcie_intr_handler env).2 0 none none = true ∧
    ((microsemi_pcie_intr_handler env).2.filter IrqEvent.is_clear_write).length =
      popcount ((env.istatus_local_first >>> 24) &&& 0x0f) +
        (if env.istatus_local_second.testBit 28 = true then 1 + popcount env.istatus_msi
         else 0) := by
  have htrace : (microsemi_pcie_intr_handler env).2 =
      intr_handler_intx env ++ intr_handler_msi env := rfl
  have hne : ¬ ISTATUS_MSI = ISTATUS_LOCAL := by decide
  rw [htrace, intr_handler_intx_eq, intr_handler_msi_eq_pow]
  constructor
  · have h10 : ¬ (0 + 1 = 0) := by decide
    rw [List.cons_append, writes_observed_readl_local, if_pos rfl,
      writes_observed_local_bodies env _ _ _ _ _ _ (by
        intro b hb
        have h := List.mem_filter.mp hb
        have h4 : b < 4 := List.mem_range.mp h.1
        exact ⟨by omega, h.2⟩),
      writes_observed_readl_local, if_neg h10]
    by_cases hb : env.istatus_local_second.testBit 28 = true
    · rw [if_pos hb, writes_observed_writel_local,
        observed_single_bit_pow _ 28 (by decide) hb, Bool.true_and,
        writes_observed_readl_msi]
      have h := writes_observed_msi_bodies env env.msi_domain env.istatus_msi [] (0 + 1 + 1)
        (some env.istatus_local_second)
        ((List.range 32).filter (fun v => env.istatus_msi.testBit v)) (by
          intro v hv
          have h := List.mem_filter.mp hv
          exact ⟨List.mem_range.mp h.1, h.2⟩)
      rw [List.append_nil] at h
      rw [h]
      rfl
    · rw [if_neg hb]
      rfl
  · rw [popcount_intx_field, List.cons_append, filter_clear_readl, List.filter_append,
      List.length_append, clear_writes_bodies _ _ _ (by decide), filter_clear_readl]
    by_cases hb : env.istatus_local_second.testBit 28 = true
    · rw [if_pos hb, if_pos hb, filter_clear_writel_local, filter_clear_readl,
        List.length_cons, clear_writes_bodies _ _ _ (by decide)]
      unfold popcount
      omega
    · rw [if_neg hb, if_neg hb]
      rfl

theorem handle_or_report_update_ne (domain : Nat → Nat) (b virq c : Nat) (hc : c ≠ b) :
    handle_or_report (Function.update domain b virq) c = handle_or_report domain c := by
  unfold handle_or_report
  rw [Function.update_noteq hc]

theorem bodies_update_ne (domain : Nat → Nat) (val : Nat → Nat) (reg b virq : Nat)
    (l : List Nat) (hb : b ∉ l) :
    l.map (fun c => [IrqEvent.writel (val c) reg,
        handle_or_report (Function.update domain b virq) c]) =
      l.map (fun c => [IrqEvent.writel (val c) reg, handle_or_report domain c]) := by
  apply List.map_congr_left
  intro c hc
  have hne : c ≠ b := fun h => hb (h ▸ hc)
  rw [handle_or_report_update_ne domain b virq c hne]

/-- Mapping one unmapped source of a loop changes its hand-over and nothing
else in the events of the loop. -/
theorem bodies_update (domain : Nat → Nat) (val : Nat → Nat) (reg : Nat) (l : List Nat)
    (hnd : l.Nodup) (b virq : Nat) (hb : b ∈ l) (hz : domain b = 0) (hv : virq ≠ 0) :
    ∃ pre post : List IrqEvent,
      (l.map (fun c => [IrqEvent.writel (val c) reg, handle_or_report domain c])).flatten =
        pre ++ [IrqEvent.writel (val b) reg, IrqEvent.unexpected_irq b] ++ post ∧
      (l.map (fun c => [IrqEvent.writel (val c) reg,
          handle_or_report (Function.update domain b virq) c])).flatten =
        pre ++ [IrqEvent.writel (val b) reg, IrqEvent.generic_handle_irq virq] ++ post := by
  obtain ⟨l1, l2, rfl⟩ := List.append_of_mem hb
  have hparts := List.nodup_append.mp hnd
  have hb2 : b ∉ l2 := (List.nodup_cons.mp hparts.2.1).1
  have hb1 : b ∉ l1 := fun h => hparts.2.2 h (List.mem_cons_self _ _)
  have hun : handle_or_report domain b = IrqEvent.unexpected_irq b := by
    unfold handle_or_report
    simp [hz]
  have hup : handle_or_report (Function.update domain b virq) b =
      IrqEvent.generic_handle_irq virq := by
    unfold handle_or_report
    simp [Function.update_same, hv]
  refine ⟨(l1.map (fun c => [IrqEvent.writel (val c) reg,
      handle_or_report domain c])).flatten,
    (l2.map (fun c => [IrqEvent.writel (val c) reg,
      handle_or_report domain c])).flatten, ?_, ?_⟩
  · rw [List.map_append, List.flatten_append, List.map_cons, List.flatten_cons, hun,
      List.append_assoc]
  · rw [List.map_append, List.flatten_append, List.map_cons, List.flatten_cons, hup,
      bodies_update_ne domain val reg b virq l1 hb1,
      bodies_update_ne domain val reg b virq l2 hb2, List.append_assoc]

theorem access_bodies (domain : Nat → Nat) (val : Nat → Nat) (reg : Nat) (l : List Nat) :
    ((l.map (fun c => [IrqEvent.writel (val c) reg,
      handle_or_report domain c])).flatten).map IrqEvent.access =
      (l.map (fun c => [some (IrqEvent.writel (val c) reg), none])).flatten := by
  induction l with
  | nil => rfl
  | cons c l ih =>
    simp only [List.map_cons, List.flatten_cons, List.map_append, ih, List.map_nil,
      handle_or_report_access]
    rfl

/-- C23: a pending source without a mapping, legacy line or MSI vector, still
has its pending bit cleared by `microsemi_pcie_intr_handler`, which then emits
the "unexpected IRQ" diagnostic in place of the dispatch; the handler returns
`IRQ_HANDLED`; and everything before and after that hand-over, the remaining
bits of the field and the MSI part included, is what it would be had the source
been mapped.  The register accesses of a run do not depend on the mappings. -/
theorem intr_handler_unmapped_continues (env : IntrEnv) :
    (microsemi_pcie_intr_handler env).1 = IRQ_HANDLED ∧
    (∀ b virq, b < 4 → env.istatus_local_first.testBit (24 + b) = true →
      env.leg_domain b = 0 → virq ≠ 0 →
      ∃ pre post : List IrqEvent,
        (microsemi_pcie_intr_handler env).2 =
          pre ++ [IrqEvent.writel (2 ^ (24 + b)) ISTATUS_LOCAL, IrqEvent.unexpected_irq b] ++
            post ∧
        (microsemi_pcie_intr_handler
          ⟨env.istatus_local_first, env.istatus_local_second, env.istatus_msi,
            Function.update env.leg_domain b virq, env.msi_domain⟩).2 =
          pre ++ [IrqEvent.writel (2 ^ (24 + b)) ISTATUS_LOCAL,
            IrqEvent.generic_handle_irq virq] ++ post) ∧
    (∀ v virq, v < 32 → env.istatus_local_second.testBit 28 = true →
      env.istatus_msi.testBit v = true → env.msi_domain v = 0 → virq ≠ 0 →
      ∃ pre post : List IrqEvent,
        (microsemi_pcie_intr_handler env).2 =
          pre ++ [IrqEvent.writel (2 ^ v) ISTATUS_MSI, IrqEvent.unexpected_irq v] ++ post ∧
        (microsemi_pcie_intr_handler
          ⟨env.istatus_local_first, env.istatus_local_second, env.istatus_msi,
            env.leg_domain, Function.update env.msi_domain v virq⟩).2 =
          pre ++ [IrqEvent.writel (2 ^ v) ISTATUS_MSI, IrqEvent.generic_handle_irq virq] ++
            post) ∧
    (∀ leg msid : Nat → Nat,
      (microsemi_pcie_intr_handler
        ⟨env.istatus_local_first, env.istatus_local_second, env.istatus_msi,
          leg, msid⟩).2.map IrqEvent.access =
        (microsemi_pcie_intr_handler env).2.map IrqEvent.access) := by
  have htrace : ∀ e : IntrEnv, (microsemi_pcie_intr_handler e).2 =
      intr_handler_intx e ++ intr_handler_msi e := fun _ => rfl
  refine ⟨rfl, ?_, ?_, ?_⟩
  · intro b virq hb hset hz hv
    have hmem : b ∈ (List.range 4).filter (fun b => env.istatus_local_first.testBit (24 + b)) :=
      List.mem_filter.mpr ⟨List.mem_range.mpr hb, hset⟩
    obtain ⟨pre, post, h1, h2⟩ := bodies_update env.leg_domain (fun c => 2 ^ (24 + c))
      ISTATUS_LOCAL _ ((List.nodup_range 4).filter _) b virq hmem hz hv
    refine ⟨IrqEvent.readl ISTATUS_LOCAL :: pre, post ++ intr_handler_msi env, ?_, ?_⟩
    · rw [htrace, intr_handler_intx_eq, h1]
      simp only [List.cons_append, List.append_assoc]
    · rw [htrace, intr_handler_intx_eq]
      show IrqEvent.readl ISTATUS_LOCAL :: _ ++ intr_handler_msi env = _
      rw [h2]
      simp only [List.cons_append, List.append_assoc]
  · intro v virq hv32 h28 hset hz hv
    have hmem : v ∈ (List.range 32).filter (fun v => env.istatus_msi.testBit v) :=
      List.mem_filter.mpr ⟨List.mem_range.mpr hv32, hset⟩
    obtain ⟨pre, post, h1, h2⟩ := bodies_update env.msi_domain (fun c => 2 ^ c)
      ISTATUS_MSI _ ((List.nodup_range 32).filter _) v virq hmem hz hv
    refine ⟨intr_handler_intx env ++ IrqEvent.readl ISTATUS_LOCAL ::
      IrqEvent.writel (2 ^ 28) ISTATUS_LOCAL :: IrqEvent.readl ISTATUS_MSI :: pre, post, ?_, ?_⟩
    · rw [htrace, intr_handler_msi_eq_pow, if_pos h28, h1]
      simp only [List.cons_append, List.append_assoc]
    · rw [htrace, intr_handler_msi_eq_pow]
      show intr_handler_intx env ++ (IrqEvent.readl ISTATUS_LOCAL ::
        if env.istatus_local_second.testBit 28 = true then _ else _) = _
      rw [if_pos h28, h2]
      simp only [List.cons_append, List.append_assoc]
  · intro leg msid
    rw [htrace, htrace, intr_handler_intx_eq, intr_handler_intx_eq, intr_handler_msi_eq_pow,
      intr_handler_msi_eq_pow]
    simp only [List.map_append, List.map_cons, access_bodies]
    by_cases h28 : env.istatus_local_second.testBit 28 = true
    · simp only [if_pos h28, List.map_cons, access_bodies]
    · simp only [if_neg h28]

theorem testBit_local_int_mask (i : Nat) :
    (0x1F000000 : Nat).testBit i = true ↔ 24 ≤ i ∧ i ≤ 28 := by
  by_cases hi : i < 32
  · interval_cases i <;> decide
  · have hle : (2 : Nat) ^ 32 ≤ 2 ^ i := Nat.pow_le_pow_right (by decide) (by omega)
    have hlt : (0x1F000000 : Nat) < 2 ^ i := Nat.lt_of_lt_of_le (by decide) hle
    rw [Nat.testBit_lt_two_pow hlt]
    constructor
    · intro h
      cases h
    · intro h
      omega

theorem writel_local_mem_intx (env : IntrEnv) (val : Nat) :
    IrqEvent.writel val ISTATUS_LOCAL ∈ intr_handler_intx env ↔
      ∃ b, b < 4 ∧ env.istatus_local_first.testBit (24 + b) = true ∧ val = 2 ^ (24 + b) := by
  rw [intr_handler_intx_eq, List.mem_cons, writel_mem_bodies]
  constructor
  · rintro (h | ⟨_, b, hb, hv⟩)
    · cases h
    · have h := List.mem_filter.mp hb
      exact ⟨b, List.mem_range.mp h.1, h.2, hv⟩
  · rintro ⟨b, hb, hset, hv⟩
    exact Or.inr ⟨rfl, b, List.mem_filter.mpr ⟨List.mem_range.mpr hb, hset⟩, hv⟩

theorem writel_local_mem_msi (env : IntrEnv) (val : Nat) :
    IrqEvent.writel val ISTATUS_LOCAL ∈ intr_handler_msi env ↔
      env.istatus_local_second.testBit 28 = true ∧ val = 2 ^ 28 := by
  rw [intr_handler_msi_eq_pow, List.mem_cons]
  by_cases h28 : env.istatus_local_second.testBit 28 = true
  · rw [if_pos h28, List.mem_cons, List.mem_cons, writel_mem_bodies]
    constructor
    · rintro (h | h | h | ⟨h, _⟩)
      · cases h
      · cases h
        exact ⟨h28, rfl⟩
      · cases h
      · exact absurd h (by decide)
    · rintro ⟨_, hv⟩
      subst hv
      exact Or.inr (Or.inl rfl)
  · rw [if_neg h28]
    constructor
    · rintro (h | h)
      · cases h
      · cases h
    · rintro ⟨h, _⟩
      exact absurd h h28

theorem intr_handler_masked_reads (env : IntrEnv) :
    (microsemi_pcie_intr_handler
      ⟨env.istatus_local_first &&& 0x1F000000, env.istatus_local_second &&& 0x1F000000,
        env.istatus_msi, env.leg_domain, env.msi_domain⟩).2 =
      (microsemi_pcie_intr_handler env).2 := by
  have htrace : ∀ e : IntrEnv, (microsemi_pcie_intr_handler e).2 =
      intr_handler_intx e ++ intr_handler_msi e := fun _ => rfl
  rw [htrace, htrace, intr_handler_intx_eq, intr_handler_intx_eq, intr_handler_msi_eq_pow,
    intr_handler_msi_eq_pow]
  simp only []
  have hf : (List.range 4).filter
      (fun b => (env.istatus_local_first &&& 0x1F000000).testBit (24 + b)) =
      (List.range 4).filter (fun b => env.istatus_local_first.testBit (24 + b)) := by
    apply List.filter_congr
    intro b hb
    have hb4 : b < 4 := List.mem_range.mp hb
    have hm : (0x1F000000 : Nat).testBit (24 + b) = true :=
      (testBit_local_int_mask _).mpr ⟨by omega, by omega⟩
    rw [Nat.testBit_and, hm, Bool.and_true]
  have h28 : (env.istatus_local_second &&& 0x1F000000).testBit 28 =
      env.istatus_local_second.testBit 28 := by
    have hm : (0x1F000000 : Nat).testBit 28 = true := by decide
    rw [Nat.testBit_and, hm, Bool.and_true]
  rw [hf, h28]

/-- C25: the value `microsemi_pcie_init_port` finally writes to `IMASK_LOCAL` is
`0x1F000000`, bit 28 and bits 24..27; and these are the bits of `ISTATUS_LOCAL`
that `microsemi_pcie_intr_handler` examines and clears: it clears bit `i` of
`ISTATUS_LOCAL` exactly when `i` is one of 24..27 and set in its first read, or
`i` is 28 and set in its second read, and bits outside the mask have no
influence on the run. -/
theorem imask_local_matches_handler (env : InitEnv) (rs : List of_pci_range)
    (hok : env.probes_ok = true) (hranges : env.ranges = some rs) (irq : IntrEnv) :
    (microsemi_pcie_init_port env).2.getLast? =
      some ⟨RegBlock.reg_bridge_apb, IMASK_LOCAL, 0x1F000000⟩ ∧
    PCIE_ENABLE_MSI ||| PCIE_LOCAL_INT_ENABLE = 0x1F000000 ∧
    (∀ i, (0x1F000000 : Nat).testBit i = true ↔ 24 ≤ i ∧ i ≤ 28) ∧
    (∀ val, IrqEvent.writel val ISTATUS_LOCAL ∈ (microsemi_pcie_intr_handler irq).2 ↔
      ∃ i, val = 2 ^ i ∧ (0x1F000000 : Nat).testBit i = true ∧
        ((i ≤ 27 ∧ irq.istatus_local_first.testBit i = true) ∨
          (i = 28 ∧ irq.istatus_local_second.testBit 28 = true))) ∧
    (microsemi_pcie_intr_handler
      ⟨irq.istatus_local_first &&& 0x1F000000, irq.istatus_local_second &&& 0x1F000000,
        irq.istatus_msi, irq.leg_domain, irq.msi_domain⟩).2 =
      (microsemi_pcie_intr_handler irq).2 := by
  refine ⟨?_, by decide, testBit_local_int_mask, ?_, intr_handler_masked_reads irq⟩
  · rw [init_port_of_probes_ok env rs hok hranges, List.getLast?_append]
    rfl
  · intro val
    have htrace : (microsemi_pcie_intr_handler irq).2 =
        intr_handler_intx irq ++ intr_handler_msi irq := rfl
    rw [htrace, List.mem_append, writel_local_mem_intx, writel_local_mem_msi]
    constructor
    · rintro (⟨b, hb, hset, hv⟩ | ⟨h28, hv⟩)
      · exact ⟨24 + b, hv, (testBit_local_int_mask _).mpr ⟨by omega, by omega⟩,
          Or.inl ⟨by omega, hset⟩⟩
      · exact ⟨28, hv, by decide, Or.inr ⟨rfl, h28⟩⟩
    · rintro ⟨i, hv, hmask, h | h⟩
      · have hi := (testBit_local_int_mask i).mp hmask
        refine Or.inl ⟨i - 24, by omega, ?_, ?_⟩
        · have e : 24 + (i - 24) = i := by omega
          rw [e]
          exact h.2
        · have e : 24 + (i - 24) = i := by omega
          rw [e]
          exact hv
      · obtain ⟨hi, h28⟩ := h
        subst hi
        exact Or.inr ⟨h28, hv⟩

/-- Witness of C25: the end-to-end scenario, and a run of the handler with
lines 1 and 3 and the MSI summary bit pending. -/
theorem imask_local_matches_handler_witness :
    (microsemi_pcie_init_port
      ⟨some "pci", 0, ⟨0x30000000, 0x3FFFFFFF⟩, 0xffffffd000000000, 0, 0xffffffd010000000, 0,
        some [⟨0x0, 0x40000000, 0x4000000, 0x200⟩], fun _ => 0⟩).2.getLast? =
      some ⟨RegBlock.reg_bridge_apb, IMASK_LOCAL, 0x1F000000⟩ :=
  (imask_local_matches_handler
    ⟨some "pci", 0, ⟨0x30000000, 0x3FFFFFFF⟩, 0xffffffd000000000, 0, 0xffffffd010000000, 0,
      some [⟨0x0, 0x40000000, 0x4000000, 0x200⟩], fun _ => 0⟩
    [⟨0x0, 0x40000000, 0x4000000, 0x200⟩] (by decide) rfl
    ⟨0x0A000000, 0x10000000, 0x5, fun b => b + 10, fun v => v + 100⟩).1

theorem driver_ops_foldl (irqd_to_hwirq : Nat → Nat) (ops : List DriverOp) :
    ∀ s : MsiPool, ops.foldl (DriverOp.step irqd_to_hwirq) s =
      (DriverOp.msi_ops ops).foldl (MsiPool.step irqd_to_hwirq) s := by
  induction ops with
  | nil =>
    intro s
    rfl
  | cons op ops ih =>
    intro s
    cases op with
    | msi m =>
      show ops.foldl (DriverOp.step irqd_to_hwirq) (s.step irqd_to_hwirq m) = _
      rw [ih]
      rfl
    | interrupt e =>
      show ops.foldl (DriverOp.step irqd_to_hwirq)
        ⟨(intr_handler_on_bitmap e s.msi_irq_in_use).2, s.outstanding⟩ = _
      rw [ih]
      rfl

/-- C27: a run of `microsemi_pcie_intr_handler` leaves the MSI in-use bitmap as
it was, whatever the registers hold and whatever the domains map, and what the
handler does is the same for every bitmap; so in any sequence of allocations,
frees and handler runs the pool ends as it would without the handler runs. -/
theorem intr_handler_keeps_bitmap (env : IntrEnv) (bitmap : Nat) :
    (intr_handler_on_bitmap env bitmap).2 = bitmap ∧
    (∀ bitmap2, (intr_handler_on_bitmap env bitmap2).1 =
      (intr_handler_on_bitmap env bitmap).1) ∧
    (∀ (irqd_to_hwirq : Nat → Nat) (ops : List DriverOp),
      ops.foldl (DriverOp.step irqd_to_hwirq) ⟨0, []⟩ =
        MsiPool.run irqd_to_hwirq (DriverOp.msi_ops ops)) :=
  ⟨rfl, fun _ => rfl, fun hw ops => driver_ops_foldl hw ops _⟩

end Microsemi
